import Mathlib

/-!
Verification model of `pg-simple-migrations`, a PostgreSQL schema migration
runner.  The development shallowly embeds the core of the implementation:

* `src/scanner.ts` — discovery, filename filtering, number parsing, SQL
  validation, duplicate / append-only / gap checks (`scanMigrations`);
* `src/state.ts` — the ledger table and `recordMigration`
  (`recordMigrationModel`), including the fact that every `StateManager`
  query runs on a connection freshly taken from the pool (autocommit), not
  on the runner's transactional client;
* `src/runner.ts` — `migrate()` (`migrateModel`) and `status()`
  (`statusModel`), with an explicit trace of the queries issued on the
  transactional client, and a small-step interleaving semantics for several
  concurrent `migrate()` calls against the same schema (`pstep`, `CStep`).

External collaborators (the `pgsql-parser` syntax oracle, SHA-256, the SQL
executor's runtime behaviour) are parameters of the model.
-/

namespace PgSimpleMigrations

/-! ### JavaScript string primitives

The scanner manipulates JS strings; we model the exact character classes the
relevant JS operations use. -/

/-- The characters matched by `\s` in a JavaScript regular expression and
trimmed by `String.prototype.trim` (WhiteSpace ∪ LineTerminator). -/
def isJsWs (c : Char) : Bool :=
  c = ' ' || c = '\t' || c = '\n' || c = '\r' || c = '\u000b' || c = '\u000c' ||
  c = '\u00a0' || c = '\u1680' ||
  ('\u2000' ≤ c && c ≤ '\u200a') ||
  c = '\u2028' || c = '\u2029' || c = '\u202f' || c = '\u205f' ||
  c = '\u3000' || c = '\ufeff'

/-- `\d` in a JS regex (no `u` flag): exactly the ASCII digits. -/
def isAsciiDigit (c : Char) : Bool :=
  '0' ≤ c && c ≤ '9'

/-- `.` in a JS regex without the `s` flag: any character except a
line terminator. -/
def isDotChar (c : Char) : Bool :=
  !(c = '\n' || c = '\r' || c = '\u2028' || c = '\u2029')

/-- `String.prototype.trim`: strip leading and trailing JS whitespace. -/
def jsTrim (s : String) : String :=
  ⟨((s.data.dropWhile isJsWs).reverse.dropWhile isJsWs).reverse⟩

/-- Numeric value of a run of ASCII digits (the exact value; rounding to a
double is accounted for separately, see `maxSafeInteger`). -/
def natOfDigits (ds : List Char) : Nat :=
  ds.foldl (fun acc c => 10 * acc + (c.toNat - '0'.toNat)) 0

/-- `Number.MAX_SAFE_INTEGER` = 2^53 - 1.  `parseInt` rounds the digit
string to the nearest double; every digit string whose exact value exceeds
2^53 - 1 rounds to a double ≥ 2^53 and is therefore rejected by
`Number.isSafeInteger`, while values ≤ 2^53 - 1 are represented exactly and
accepted.  Hence the source's safety check is equivalent to comparing the
exact value against this bound. -/
def maxSafeInteger : Nat := 9007199254740991

/-- `String(n).padStart(3, '0')` for a non-negative integer `n`. -/
def padStart3 (n : Nat) : String :=
  let s := toString n
  if s.length < 3 then ⟨List.replicate (3 - s.length) '0'⟩ ++ s else s

/-! ### The migration filename pattern

`src/scanner.ts` line 8:
`const MIGRATION_FILE_PATTERN = /^(\d+)\s*-\s*(.+?)(?:\s+)?\.sql$/`

We implement this anchored regex directly, with JS backtracking semantics:
`\d+` and the `\s*` before the dash are greedy but cannot usefully
backtrack (a digit can never satisfy `\s*-` and a whitespace character is
not `-`), the `\s*` after the dash is greedy with backtracking, `(.+?)` is
lazy, and `(?:\s+)?\.sql$` forces the remainder to be optional whitespace
followed by the literal `.sql` at the end of the string. -/

/-- Does `l` match `(?:\s+)?\.sql$` (i.e. is it optional JS whitespace
followed by exactly `.sql`)? -/
def isWsSqlTail (l : List Char) : Bool :=
  l.dropWhile isJsWs = ['.', 's', 'q', 'l']

/-- Lazy matching of `(.+?)(?:\s+)?\.sql$` against `l`: the shortest
non-empty prefix of `.`-matchable characters whose remainder matches
`(?:\s+)?\.sql$`; returns the captured prefix. -/
def lazyCapture : List Char → Option (List Char)
  | [] => none
  | c :: rest =>
    if isDotChar c then
      if isWsSqlTail rest then some [c]
      else
        match lazyCapture rest with
        | some cs => some (c :: cs)
        | none => none
    else none

/-- Matching of `\s*(.+?)(?:\s+)?\.sql$` against `l`: the `\s*` is greedy
(tries to consume each whitespace character first) but backtracks when the
rest of the pattern cannot match. -/
def wsStarCapture : List Char → Option (List Char)
  | [] => none
  | c :: rest =>
    if isJsWs c then
      match wsStarCapture rest with
      | some cs => some cs
      | none => lazyCapture (c :: rest)
    else lazyCapture (c :: rest)

/-- `file.match(MIGRATION_FILE_PATTERN)`: on success returns the two capture
groups — the leading digit run and the (untrimmed) name. -/
def matchMigrationFile (file : String) : Option (List Char × List Char) :=
  let l := file.data
  let digits := l.takeWhile isAsciiDigit
  if digits.isEmpty then none
  else
    let afterDigits := l.dropWhile isAsciiDigit
    let afterWs := afterDigits.dropWhile isJsWs
    match afterWs with
    | '-' :: rest =>
      match wsStarCapture rest with
      | some nameChars => some (digits, nameChars)
      | none => none
    | _ => none

/-! ### Data model

`src/types.ts` is not part of the sources provided, but the `Migration`
shape is fully determined by its uses in `scanner.ts`, `state.ts` and
`runner.ts`: `{ number, name, path, hash, sql, hasRun? }`. -/

/-- One migration, as constructed by the scanner (`hasRun` is only filled in
by `StateManager.getMigrationStatus` / `getCompletedMigrations`; rows coming
from the database leave `path` and `sql` empty, mirroring the `SELECT` that
only returns `number`, `name`, `hash`, `hasRun`). -/
structure Migration where
  number : Nat
  name : String
  path : String
  hash : String
  sql : String
  hasRun : Bool := false
deriving Repr, DecidableEq

/-- `SqlError` from `src/utils/sql-validator.ts`. -/
structure SqlError where
  message : String
  fileName : Option String := none
  lineNumber : Option Nat := none
  cursorPosition : Option Nat := none
deriving Repr, DecidableEq

/-- `validateSql` from `src/utils/sql-validator.ts`.  The external
`pgsql-parser` `parse` function is the opaque parameter `parseOk`
(`true` = parses without throwing).  Empty / whitespace-only SQL is accepted
without consulting the parser; a parse failure is reported with the fixed
message `"syntax error"` and no line number. -/
def validateSql (parseOk : String → Bool) (sql fileName : String) :
    Option SqlError :=
  if jsTrim sql = ("") then none
  else if parseOk sql then none
  else some { message := ("syntax error"), fileName := some fileName }

/-! ### The scanner (`src/scanner.ts`, `scanMigrations`) -/

/-- `String.prototype.startsWith`. -/
def strStartsWith (s p : String) : Bool :=
  p.data.isPrefixOf s.data

/-- `String.prototype.endsWith`. -/
def strEndsWith (s p : String) : Bool :=
  p.data.reverse.isPrefixOf s.data.reverse

/-- The per-entry filtering policy of `scanMigrations` (lines 25–65).
Returns `some reason` when the file is ignored (pushed onto
`ignoredFiles`), `none` when it survives filtering. -/
def fileFilter (file : String) : Option String :=
  if strStartsWith file (".") then
    some ("Hidden files are not allowed")
  else if !strEndsWith file (".sql") || strEndsWith file (".sql.bak") then
    some ("File must end with .sql extension")
  else
    match matchMigrationFile file with
    | none =>
      some ("Invalid filename format. Must match pattern: <number>-<name>.sql")
    | some (numberStr, _) =>
      -- `parseInt(numberStr, 10)`; `!Number.isSafeInteger(number) || number < 0`
      -- (a digit run is never negative, see `maxSafeInteger`)
      if maxSafeInteger < natOfDigits numberStr then
        some ("Invalid migration number. Must be a positive integer.")
      else none

/-- The migration number encoded in a (pattern-matching) filename; `0` as a
don't-care value for files that do not match, which never occurs for files
that survive `fileFilter`. -/
def fileNumber (file : String) : Nat :=
  match matchMigrationFile file with
  | some (numberStr, _) => natOfDigits numberStr
  | none => 0

/-- The files that survive filtering, sorted ascending by migration number
(lines 25–71).  `Array.prototype.sort` with the comparator
`parseInt(a) - parseInt(b)` is a stable ascending sort (ES2019); we model it
with the stable `List.insertionSort`. -/
def sortedValidFiles (files : List String) : List String :=
  (files.filter (fun f => (fileFilter f).isNone)).insertionSort
    (fun a b => fileNumber a ≤ fileNumber b)

/-- The ignored files with their reasons, in directory order — the content of
the single batched warning (lines 22–65 and 104–110). -/
def ignoredFilesOf (files : List String) : List (String × String) :=
  files.filterMap (fun f => (fileFilter f).map (fun r => (f, r)))

/-- The error thrown for a migration whose SQL fails validation
(lines 82–87).  `validateSql` never supplies a line number, but the source's
conditional suffix is mirrored. -/
def sqlErrorMessage (file : String) (e : SqlError) : String :=
  ("Invalid SQL in migration ") ++ file ++ (": ") ++ e.message ++
    (match e.lineNumber with
     | some ln => (" at line ") ++ toString ln
     | none => (""))

/-- Construction of one `Migration` from a file that survived filtering
(lines 73–102): read the content, validate it, hash it, trim the name.
`contents` maps a filename to the file's text (`fs.readFile`), `hashHex`
is the external SHA-256-to-hex digest, `directory` prefixes the stored
path (`path.join`). -/
def buildMigration (parseOk : String → Bool) (hashHex : String → String)
    (directory : String) (contents : String → String) (file : String) :
    Except String Migration :=
  match matchMigrationFile file with
  | none =>
    -- unreachable for files that survived filtering (the source uses a
    -- non-null assertion `file.match(...)!`)
    Except.error ("Invalid filename format. Must match pattern: <number>-<name>.sql")
  | some (numberStr, nameChars) =>
    -- `const sql = await fs.readFile(filePath, 'utf-8')`
    match validateSql parseOk (contents file) file with
    | some e => Except.error (sqlErrorMessage file e)
    | none =>
      Except.ok
        { number := natOfDigits numberStr
          name := jsTrim ⟨nameChars⟩
          path := directory ++ ("/") ++ file
          hash := hashHex (contents file)
          sql := contents file }

/-- The trimmed name a (pattern-matching) filename carries. -/
def migName (file : String) : String :=
  match matchMigrationFile file with
  | some (_, nameChars) => jsTrim ⟨nameChars⟩
  | none => ("")

/-- The `Migration` value `buildMigration` produces for a file whose name
matches the pattern and whose content validates. -/
def mkMig (hashHex : String → String) (directory : String)
    (contents : String → String) (file : String) : Migration :=
  { number := fileNumber file
    name := migName file
    path := directory ++ ("/") ++ file
    hash := hashHex (contents file)
    sql := contents file }

/-- Sequential realisation of `Promise.all(migrationPromises)` (line 113):
build every migration, surfacing the first failure. -/
def buildAll (parseOk : String → Bool) (hashHex : String → String)
    (directory : String) (contents : String → String) :
    List String → Except String (List Migration)
  | [] => Except.ok []
  | f :: fs =>
    match buildMigration parseOk hashHex directory contents f with
    | Except.error e => Except.error e
    | Except.ok m =>
      match buildAll parseOk hashHex directory contents fs with
      | Except.error e => Except.error e
      | Except.ok ms => Except.ok (m :: ms)

/-- The duplicate-number error (lines 120–123). -/
def duplicateMessage (number : Nat) (existingName name : String) : String :=
  ("Duplicate migration number: ") ++ padStart3 number ++
    (". Found in files: ") ++ existingName ++ (" and ") ++ name

/-- Duplicate detection (lines 115–126): walk the migrations keeping a map
from number to the first name seen; fail on the first number seen twice. -/
def dupCheck : List Migration → List (Nat × String) → Option String
  | [], _ => none
  | m :: rest, seen =>
    match seen.lookup m.number with
    | some existingName => some (duplicateMessage m.number existingName m.name)
    | none => dupCheck rest (seen ++ [(m.number, m.name)])

/-- The append-only error (lines 145–148). -/
def appendOnlyMessage (number maxPrevious : Nat) : String :=
  ("Invalid migration number: ") ++ toString number ++
    (". New migrations must be numbered higher than ") ++
    ("the highest existing migration (") ++ toString maxPrevious ++ (").")

/-- Append-only check (lines 143–150): the first new migration numbered at
or below the highest previously recorded number is fatal. -/
def appendOnlyCheck (maxPrevious : Nat) : List Migration → Option String
  | [] => none
  | m :: rest =>
    if m.number ≤ maxPrevious then some (appendOnlyMessage m.number maxPrevious)
    else appendOnlyCheck maxPrevious rest

/-- The gap error (lines 159–163). -/
def gapMessage (gap prev next maxGap : Nat) : String :=
  ("Migration gap too large: ") ++ toString gap ++ (" between migrations ") ++
    toString prev ++ (" and ") ++ toString next ++
    (". Maximum allowed gap is ") ++ toString maxGap ++ (".")

/-- Gap check (lines 156–165): the first adjacent pair of new migrations
whose difference exceeds `maxGap` is fatal. -/
def gapCheck (maxGap : Nat) : List Migration → Option String
  | m₁ :: m₂ :: rest =>
    if maxGap < m₂.number - m₁.number then
      some (gapMessage (m₂.number - m₁.number) m₁.number m₂.number maxGap)
    else gapCheck maxGap (m₂ :: rest)
  | _ => none

/-- `ScanOptions` from `src/scanner.ts`. -/
structure ScanOptions where
  previousMigrations : Option (List Migration) := none
  maxGap : Option Nat := none
deriving Repr

/-- What one `scanMigrations` call produces: the content of the batched
"Some SQL files were ignored" warning, and either the new migrations or the
thrown error. -/
structure ScanOutcome where
  ignored : List (String × String)
  result : Except String (List Migration)
deriving Repr

/-- Line 132: the numbers of the previously run migrations
(`options.previousMigrations?.map(m => m.number) ?? []`; the `Set`
wrapper only affects membership tests, which ignore multiplicity). -/
def previousNumbersOf (options : ScanOptions) : List Nat :=
  (options.previousMigrations.getD []).map (fun m => m.number)

/-- Lines 138–140: `Math.max(...previousMigrationNumbers)` when the set is
non-empty, else `0`. -/
def maxPreviousOf (options : ScanOptions) : Nat :=
  if (previousNumbersOf options).isEmpty then 0
  else (previousNumbersOf options).foldr Nat.max 0

/-- Lines 129–135 of `scanMigrations`: re-sort the built migrations by
number (stable) and keep only those whose number is not previously
recorded — the `newMigrations` of the source. -/
def scanNew (previousNumbers : List Nat) (migrations : List Migration) :
    List Migration :=
  (migrations.insertionSort (fun a b => a.number ≤ b.number)).filter
    (fun m => !previousNumbers.contains m.number)

/-- Lines 115–167 of `scanMigrations`, operating on the built migrations:
duplicate check, then on `scanNew` the append-only check, the gap check,
and the final result. -/
def scanChecks (previousNumbers : List Nat) (maxPrevious maxGap : Nat)
    (migrations : List Migration) : Except String (List Migration) :=
  match dupCheck migrations [] with
  | some e => Except.error e
  | none =>
    match appendOnlyCheck maxPrevious (scanNew previousNumbers migrations) with
    | some e => Except.error e
    | none =>
      match gapCheck maxGap (scanNew previousNumbers migrations) with
      | some e => Except.error e
      | none => Except.ok (scanNew previousNumbers migrations)

/-- `scanMigrations` (lines 17–168).  `files` is the directory listing
(`fs.readdir`); filtering, per-file build (content read + SQL validation +
hash, line 73–113), then the checks of `scanChecks`, in the source's order.
The default `maxGap` is 50 (line 153). -/
def scanMigrations (parseOk : String → Bool) (hashHex : String → String)
    (directory : String) (files : List String) (contents : String → String)
    (options : ScanOptions) : ScanOutcome :=
  match buildAll parseOk hashHex directory contents (sortedValidFiles files) with
  | Except.error e => ⟨ignoredFilesOf files, Except.error e⟩
  | Except.ok migrations =>
    ⟨ignoredFilesOf files,
      scanChecks (previousNumbersOf options) (maxPreviousOf options)
        (options.maxGap.getD 50) migrations⟩

/-! ### The state store (`src/state.ts`, `StateManager`)

Every `StateManager` method acquires its **own** connection from the pool
(`this.pool.connect()` / `this.pool.query`), distinct from the client on
which `Runner.migrate` opened its transaction, and never issues `BEGIN`.
Each of its statements therefore runs in its own implicit single-statement
transaction and is committed immediately.  In the model this is reflected by
`StateManager` operations acting directly on the shared committed database
state, while the SQL of the migrations themselves acts on the transactional
client's private, not-yet-committed effects. -/

/-- One row of `"<schema>"."pg_simple_migrations"` (`executed_at` is
server-assigned and plays no role in any claim). -/
structure LedgerRow where
  number : Nat
  name : String
  hash : String
deriving Repr, DecidableEq

/-- The committed state of the database, for one schema: whether the ledger
table exists, its rows in insertion order, and the committed effects of
executed migration SQL (abstractly, the list of committed SQL texts). -/
structure DB where
  ledgerExists : Bool
  ledger : List LedgerRow
  applied : List String
deriving Repr, DecidableEq

/-- `StateManager.initialize`: `CREATE TABLE IF NOT EXISTS` +
`CREATE INDEX IF NOT EXISTS`, idempotent, on a separate pooled connection
(committed immediately). -/
def ensureLedgerTable (db : DB) : DB :=
  { db with ledgerExists := true }

/-- `StateManager.getCompletedMigrations`: `SELECT number, name, hash,
TRUE as "hasRun" … ORDER BY number ASC` — a read of the committed rows,
ascending by number, with `path` and `sql` absent from the row shape. -/
def getCompletedMigrations (db : DB) : List Migration :=
  (db.ledger.insertionSort (fun a b => a.number ≤ b.number)).map
    (fun r => { number := r.number, name := r.name, path := ("")
                hash := r.hash, sql := (""), hasRun := true })

/-- The "lost the race" error of `recordMigration` (line 72 of
`src/state.ts`). -/
def alreadyExecutedMessage (number : Nat) : String :=
  ("Migration ") ++ toString number ++
    (" was already executed by another process")

/-- `StateManager.recordMigration`, sequential view.  On its own pooled
connection it runs, each in its own implicit transaction:
`SELECT pg_advisory_xact_lock(number)` (the lock is released again when that
single statement's transaction ends, i.e. immediately — a no-op on shared
state), the existence check, and the `INSERT`, which is committed at once —
independently of the runner's open transaction. -/
def recordMigrationModel (db : DB) (m : Migration) :
    DB × Except String Unit :=
  if db.ledger.any (fun r => r.number = m.number) then
    (db, Except.error (alreadyExecutedMessage m.number))
  else
    ({ db with ledger := db.ledger ++ [⟨m.number, m.name, m.hash⟩] },
     Except.ok ())

/-- `StateManager.getMigrationStatus`: annotate each candidate with whether
its number appears among the completed rows, preserving input order. -/
def getMigrationStatus (db : DB) (migrations : List Migration) :
    List Migration :=
  migrations.map (fun m =>
    { m with hasRun := db.ledger.any (fun r => r.number = m.number) })

/-! ### The runner (`src/runner.ts`), sequential semantics

`migrate()` opens a transaction on one pooled client and executes each
pending migration's SQL on that client; recording goes through
`StateManager` and is therefore committed immediately on other connections.
The model returns the final committed database, the exact list of queries
issued on the transactional client, and the outcome. -/

/-- The `SET search_path TO "<schema>"` text issued before each migration
(line 69 of `src/runner.ts`), with `schema = options.schema || 'public'`. -/
def setSearchPathSql (schema : Option String) : String :=
  ("SET search_path TO \"") ++ schema.getD ("public") ++ ("\"")

/-- Result of one `migrate()` call: final committed database state, the
queries issued on the transactional client (in order), and the returned or
thrown outcome. -/
structure MigrateOutcome where
  db : DB
  clientTrace : List String
  outcome : Except String Unit
deriving Repr

/-- The migration loop of `migrate()` (lines 64–85).  `fx` accumulates the
SQL texts executed inside the open transaction (private until `COMMIT`);
`execResult sql = some err` models a runtime failure of that SQL on the
transactional executor.  On failure the `catch` block issues `ROLLBACK`,
which discards `fx` but cannot undo the already committed ledger inserts. -/
def migrateLoop (execResult : String → Option String) (schema : Option String)
    (db : DB) (fx : List String) (trace : List String) :
    List Migration → MigrateOutcome
  | [] =>
    -- line 84: COMMIT — publish the private effects
    ⟨{ db with applied := db.applied ++ fx }, trace ++ [("COMMIT")],
      Except.ok ()⟩
  | m :: rest =>
    let trace := trace ++ [setSearchPathSql schema, m.sql]
    match execResult m.sql with
    | some err =>
      -- lines 86–90: ROLLBACK discards the private effects, error rethrown
      (⟨db, trace ++ [("ROLLBACK")], Except.error err⟩ : MigrateOutcome)
    | none =>
      match recordMigrationModel db m with
      | (db', Except.error e) =>
        (⟨db', trace ++ [("ROLLBACK")], Except.error e⟩ : MigrateOutcome)
      | (db', Except.ok _) =>
        migrateLoop execResult schema db' (fx ++ [m.sql]) trace rest

/-- `Runner.migrate` (lines 31–94): BEGIN on the pooled client; initialize
the ledger table and read the completed migrations on other pooled
connections (committed immediately); scan; re-read the completed set and
filter; on an empty pending list return successfully — the source `return`s
from inside the `try` without issuing `COMMIT`; otherwise run the loop. -/
def migrateModel (parseOk : String → Bool) (hashHex : String → String)
    (contents : String → String) (execResult : String → Option String)
    (directory : String) (files : List String) (schema : Option String)
    (db₀ : DB) : MigrateOutcome :=
  let trace := [("BEGIN")]
  let db₁ := ensureLedgerTable db₀
  let completed₁ := getCompletedMigrations db₁
  let scanned := scanMigrations parseOk hashHex directory files contents
    { previousMigrations := some completed₁ }
  match scanned.result with
  | Except.error e =>
    ⟨db₁, trace ++ [("ROLLBACK")], Except.error e⟩
  | Except.ok migrations =>
    let completed₂ := getCompletedMigrations db₁
    let completedNumbers := completed₂.map (fun m => m.number)
    let pendingMigrations :=
      migrations.filter (fun m => !completedNumbers.contains m.number)
    if pendingMigrations.isEmpty then
      -- lines 58–61: early `return` — no COMMIT is ever issued
      ⟨db₁, trace, Except.ok ()⟩
    else
      migrateLoop execResult schema db₁ [] trace pendingMigrations

/-- `Runner.status` (lines 96–100): scan with **no** options (no
previously-recorded set, default max gap), then annotate via
`getMigrationStatus`.  Read-only and non-transactional. -/
def statusModel (parseOk : String → Bool) (hashHex : String → String)
    (contents : String → String) (directory : String) (files : List String)
    (db : DB) : Except String (List Migration) :=
  match (scanMigrations parseOk hashHex directory files contents {}).result with
  | Except.error e => Except.error e
  | Except.ok migrations => Except.ok (getMigrationStatus db migrations)

/-! ### Concurrent `migrate()` calls

Several `Runner` instances may call `migrate()` concurrently against the
same directory and schema.  All shared mutable state lives in the database:
the ledger table (`StateManager` statements are autocommitted, one
statement per implicit transaction, on connections of their own) and the
committed effects of migration SQL (private to each runner's transaction
until its `COMMIT`).  We model each runner as a deterministic sequence of
atomic database statements, and an execution as an arbitrary interleaving.

Program points of one `migrate()` call, between consecutive statements that
touch shared state (`fx` is the private, uncommitted SQL executed so far in
the runner's transaction): -/

/-- The error raised by PostgreSQL when the `INSERT` of `recordMigration`
hits the `number` primary key (the existence check passed before another
process's insert committed). -/
def duplicateKeyMessage : String :=
  ("duplicate key value violates unique constraint ") ++
    ("\"pg_simple_migrations_pkey\"")

/-- Program counter of one concurrent `migrate()` call. -/
inductive PProc where
  /-- about to `BEGIN` and run `StateManager.initialize` -/
  | toInit : PProc
  /-- about to read the completed migrations (line 45) and scan -/
  | toScan : PProc
  /-- about to re-read the completed migrations (line 50) and filter -/
  | toFilter (migrations : List Migration) : PProc
  /-- about to `SET search_path` and execute `m.sql` in the private
  transaction -/
  | toExec (fx : List String) (m : Migration) (rest : List Migration) : PProc
  /-- about to run `SELECT pg_advisory_xact_lock(m.number)` on a fresh
  pooled connection (its implicit transaction ends with the statement, so
  the lock is released again before the next statement runs) -/
  | toLock (fx : List String) (m : Migration) (rest : List Migration) : PProc
  /-- about to run the existence check of `recordMigration` -/
  | toCheck (fx : List String) (m : Migration) (rest : List Migration) : PProc
  /-- about to run the `INSERT` of `recordMigration` (autocommitted) -/
  | toInsert (fx : List String) (m : Migration) (rest : List Migration) :
      PProc
  /-- about to `COMMIT` the private transaction -/
  | toCommit (fx : List String) : PProc
  /-- returned successfully -/
  | finished : PProc
  /-- threw; the `catch` block has rolled the private transaction back -/
  | failed (err : String) : PProc
deriving Repr, DecidableEq

/-- The fixed context of one run: the external collaborators and the
directory being migrated. -/
structure RunEnv where
  parseOk : String → Bool
  hashHex : String → String
  contents : String → String
  execResult : String → Option String
  directory : String
  files : List String
  schema : Option String

/-- One atomic step of one `migrate()` call: the next statement that
touches the shared database, exactly as issued by `src/runner.ts` and
`src/state.ts`. -/
def pstep (env : RunEnv) (db : DB) : PProc → DB × PProc
  | PProc.toInit => (ensureLedgerTable db, PProc.toScan)
  | PProc.toScan =>
    match (scanMigrations env.parseOk env.hashHex env.directory env.files
        env.contents
        { previousMigrations := some (getCompletedMigrations db) }).result with
    | Except.error e => (db, PProc.failed e)
    | Except.ok migrations => (db, PProc.toFilter migrations)
  | PProc.toFilter migrations =>
    match migrations.filter (fun m =>
      !((getCompletedMigrations db).map
        (fun m => m.number)).contains m.number) with
    | [] => (db, PProc.finished)  -- early return (no COMMIT is issued)
    | m :: rest => (db, PProc.toExec [] m rest)
  | PProc.toExec fx m rest =>
    match env.execResult m.sql with
    | some err => (db, PProc.failed err)  -- ROLLBACK discards fx
    | none => (db, PProc.toLock (fx ++ [m.sql]) m rest)
  | PProc.toLock fx m rest =>
    -- `SELECT pg_advisory_xact_lock($1)` in its own implicit transaction:
    -- acquired and released within this atomic statement, so no lock is
    -- held at any point between steps.
    (db, PProc.toCheck fx m rest)
  | PProc.toCheck fx m rest =>
    if db.ledger.any (fun r => r.number = m.number) then
      (db, PProc.failed (alreadyExecutedMessage m.number))
    else (db, PProc.toInsert fx m rest)
  | PProc.toInsert fx m rest =>
    if db.ledger.any (fun r => r.number = m.number) then
      -- the row appeared between the check and the insert
      (db, PProc.failed duplicateKeyMessage)
    else
      ({ db with ledger := db.ledger ++ [⟨m.number, m.name, m.hash⟩] },
       match rest with
       | [] => PProc.toCommit fx
       | m' :: rest' => PProc.toExec fx m' rest')
  | PProc.toCommit fx =>
    ({ db with applied := db.applied ++ fx }, PProc.finished)
  | PProc.finished => (db, PProc.finished)
  | PProc.failed e => (db, PProc.failed e)

/-- A configuration: the committed database plus every runner's program
counter. -/
structure Config where
  db : DB
  procs : List PProc

/-- Let runner `i` take its next atomic step. -/
def applyAt (env : RunEnv) (cfg : Config) (i : Nat) : Config :=
  match cfg.procs[i]? with
  | none => cfg
  | some p =>
    let s := pstep env cfg.db p
    ⟨s.1, cfg.procs.set i s.2⟩

/-- The scheduler: some runner takes a step. -/
def CStep (env : RunEnv) (cfg cfg' : Config) : Prop :=
  ∃ i, cfg' = applyAt env cfg i

/-- All interleaved executions. -/
def Reaches (env : RunEnv) : Config → Config → Prop :=
  Relation.ReflTransGen (CStep env)

/-- A runner that has returned or thrown. -/
def isTerminalProc : PProc → Bool
  | PProc.finished => true
  | PProc.failed _ => true
  | _ => false

/-- A configuration in which every runner has returned or thrown. -/
def Terminal (cfg : Config) : Prop :=
  ∀ p ∈ cfg.procs, isTerminalProc p = true

/-- `N` concurrent `migrate()` calls against a database whose ledger is
empty (the table need not exist yet). -/
def initConfig (tableExists : Bool) (N : Nat) : Config :=
  ⟨⟨tableExists, [], []⟩, List.replicate N PProc.toInit⟩

/-! ### Concrete instances used by closed theorems -/

/-- A syntax oracle that accepts everything. -/
def acceptAll : String → Bool := fun _ => true

/-- A degenerate stand-in for the external SHA-256 hex digest (the model is
parametric in the digest; closed evaluations may pick any function). -/
def identityHash : String → String := fun s => s

/-- An executor on which every statement succeeds at runtime. -/
def execAllOk : String → Option String := fun _ => none

/-- A ledger-shaped `Migration` (as returned by
`getCompletedMigrations`), for closed witnesses. -/
def rowMig (n : Nat) (nm : String) : Migration :=
  { number := n, name := nm, path := (""), hash := (""), sql := ("")
    hasRun := true }

/-- A scanner-shaped `Migration`, for closed witnesses. -/
def scannedMig (n : Nat) (nm p hsh sq : String) : Migration :=
  { number := n, name := nm, path := p, hash := hsh, sql := sq }

/-- The migrations built from the files that survive filtering, in sorted
order (the `migrations` array of the scanner, assuming every content
validates). -/
def builtMigrations (hashHex : String → String) (directory : String)
    (contents : String → String) (files : List String) : List Migration :=
  (sortedValidFiles files).map (mkMig hashHex directory contents)

/-- The `newMigrations` a scan computes for given options. -/
def scanNewOf (hashHex : String → String) (directory : String)
    (contents : String → String) (files : List String)
    (options : ScanOptions) : List Migration :=
  scanNew (previousNumbersOf options)
    (builtMigrations hashHex directory contents files)

/-- Contents for the C1 failing batch: migration 1 is valid, migration 2
fails at runtime. -/
def c1Contents : String → String := fun f =>
  if f = ("001-a.sql") then ("CREATE TABLE t1 (x int)") else ("BROKEN")

/-- Runtime behaviour of the executor for the C1 failing batch. -/
def c1Exec : String → Option String := fun s =>
  if s = ("BROKEN") then some ("relation \"missing\" does not exist")
  else none

/-- Contents used by the closed runner scenarios. -/
def selectOne : String → String := fun _ => ("SELECT 1")

/-- Directory of the C10 contrast scenario: migrations 51 and 150. -/
def c10files : List String := [("051-a.sql"), ("150-b.sql")]

/-- Database of the C10 contrast scenario: migration 51 already recorded. -/
def c10db : DB :=
  ⟨true, [⟨51, ("a"), ("SELECT 1")⟩], [("SELECT 1")]⟩

/-- The ledger row `recordMigration` inserts for a migration. -/
def rowOf (m : Migration) : LedgerRow :=
  ⟨m.number, m.name, m.hash⟩

/-- A well-behaved concurrent scenario: the directory scans cleanly from an
empty ledger into the list `L`, and every migration's SQL succeeds at
runtime on the executor. -/
def GoodRun (env : RunEnv) (L : List Migration) : Prop :=
  (scanMigrations env.parseOk env.hashHex env.directory env.files
    env.contents {}).result = Except.ok L ∧
  ∀ m ∈ L, env.execResult m.sql = none

/-- Position soundness of one runner: any pending list it holds is a suffix
of `L` starting no later than the `k` rows already in the ledger. -/
def posOK (L : List Migration) (k : Nat) : PProc → Prop
  | PProc.toFilter migs => ∃ j, j ≤ k ∧ migs = L.drop j
  | PProc.toExec _ m rest => ∃ j, j ≤ k ∧ m :: rest = L.drop j
  | PProc.toLock _ m rest => ∃ j, j ≤ k ∧ m :: rest = L.drop j
  | PProc.toCheck _ m rest => ∃ j, j ≤ k ∧ m :: rest = L.drop j
  | PProc.toInsert _ m rest => ∃ j, j ≤ k ∧ m :: rest = L.drop j
  | _ => True

/-- A runner that is still guaranteed to make progress towards recording
`L[k]` (the next migration the ledger needs): it has not started, has not
yet filtered, or is working exactly at the ledger frontier. -/
def hot (L : List Migration) (k : Nat) : PProc → Prop
  | PProc.toInit => True
  | PProc.toScan => True
  | PProc.toFilter migs => ∃ j, j ≤ k ∧ migs = L.drop j
  | PProc.toExec _ m rest => m :: rest = L.drop k
  | PProc.toLock _ m rest => m :: rest = L.drop k
  | PProc.toCheck _ m rest => m :: rest = L.drop k
  | PProc.toInsert _ m rest => m :: rest = L.drop k
  | _ => False

/-- The inductive invariant of the concurrent system: the ledger is always
exactly the first `k` migrations of `L` in order (hence never a duplicate
row), every runner's position is sound, and while the ledger is incomplete
some runner is hot. -/
def ConcInv (L : List Migration) (cfg : Config) : Prop :=
  ∃ k, k ≤ L.length ∧ cfg.db.ledger = (L.take k).map rowOf ∧
    (∀ i, ∀ h : i < cfg.procs.length, posOK L k cfg.procs[i]) ∧
    (k < L.length → ∃ i, ∃ h : i < cfg.procs.length, hot L k cfg.procs[i])

/-- Environment of the closed concurrent scenario. -/
def c2env : RunEnv :=
  ⟨acceptAll, identityHash, selectOne, execAllOk, ("d"), [("001-a.sql")],
    none⟩

/-- Scan result of the closed concurrent scenario. -/
def c2L : List Migration :=
  [⟨1, ("a"), ("d/001-a.sql"), ("SELECT 1"), ("SELECT 1"), false⟩]

/-- Terminal configuration of the closed concurrent scenario. -/
def c2final : Config :=
  ⟨⟨true, [⟨1, ("a"), ("SELECT 1")⟩], [("SELECT 1")]⟩, [PProc.finished]⟩

/-! ### Lemmas about filtering and building -/

theorem kept_match {f : String} (h : fileFilter f = none) :
    ∃ pr, matchMigrationFile f = some pr ∧
      natOfDigits pr.1 ≤ maxSafeInteger := by
  unfold fileFilter at h
  split at h
  · exact absurd h (by simp)
  split at h
  · exact absurd h (by simp)
  rcases hm : matchMigrationFile f with _ | ⟨ds, nm⟩
  · rw [hm] at h
    exact absurd h (by simp)
  · rw [hm] at h
    dsimp only at h
    split at h
    · exact absurd h (by simp)
    · exact ⟨(ds, nm), rfl, Nat.le_of_not_lt (by assumption)⟩

theorem fileNumber_eq {f : String} {ds nm : List Char}
    (h : matchMigrationFile f = some (ds, nm)) :
    fileNumber f = natOfDigits ds := by
  unfold fileNumber
  rw [h]

theorem migName_eq {f : String} {ds nm : List Char}
    (h : matchMigrationFile f = some (ds, nm)) :
    migName f = jsTrim ⟨nm⟩ := by
  unfold migName
  rw [h]

theorem buildMigration_ok {parseOk : String → Bool} {hashHex : String → String}
    {directory : String} {contents : String → String} {f : String}
    (hm : matchMigrationFile f ≠ none)
    (hv : validateSql parseOk (contents f) f = none) :
    buildMigration parseOk hashHex directory contents f =
      Except.ok (mkMig hashHex directory contents f) := by
  rcases hmm : matchMigrationFile f with _ | ⟨ds, nm⟩
  · exact absurd hmm hm
  · unfold buildMigration
    rw [hmm]
    dsimp only
    rw [hv]
    unfold mkMig
    rw [fileNumber_eq hmm, migName_eq hmm]

theorem buildMigration_err {parseOk : String → Bool}
    {hashHex : String → String} {directory : String}
    {contents : String → String} {f : String} {e : SqlError}
    (hm : matchMigrationFile f ≠ none)
    (hv : validateSql parseOk (contents f) f = some e) :
    buildMigration parseOk hashHex directory contents f =
      Except.error (sqlErrorMessage f e) := by
  rcases hmm : matchMigrationFile f with _ | ⟨ds, nm⟩
  · exact absurd hmm hm
  · unfold buildMigration
    rw [hmm]
    dsimp only
    rw [hv]

theorem buildAll_ok {parseOk : String → Bool} {hashHex : String → String}
    {directory : String} {contents : String → String} {fs : List String}
    (h : ∀ f ∈ fs, matchMigrationFile f ≠ none ∧
      validateSql parseOk (contents f) f = none) :
    buildAll parseOk hashHex directory contents fs =
      Except.ok (fs.map (mkMig hashHex directory contents)) := by
  induction fs with
  | nil => rfl
  | cons f fs ih =>
    obtain ⟨hm, hv⟩ := h f (List.mem_cons_self f fs)
    unfold buildAll
    rw [buildMigration_ok hm hv, ih (fun g hg => h g (List.mem_cons_of_mem f hg))]
    rfl

theorem buildAll_inv {parseOk : String → Bool} {hashHex : String → String}
    {directory : String} {contents : String → String} {fs : List String}
    {ms : List Migration}
    (h : buildAll parseOk hashHex directory contents fs = Except.ok ms) :
    ms = fs.map (mkMig hashHex directory contents) ∧
      ∀ f ∈ fs, matchMigrationFile f ≠ none ∧
        validateSql parseOk (contents f) f = none := by
  induction fs generalizing ms with
  | nil =>
    refine ⟨?_, by simp⟩
    unfold buildAll at h
    exact (Except.ok.injEq _ _ ▸ h.symm).symm ▸ rfl
  | cons f fs ih =>
    unfold buildAll at h
    rcases hb : buildMigration parseOk hashHex directory contents f with e | m
    · rw [hb] at h; exact absurd h (by simp)
    · rw [hb] at h
      rcases hr : buildAll parseOk hashHex directory contents fs with e | ms'
      · rw [hr] at h; exact absurd h (by simp)
      · rw [hr] at h
        have hms : ms = m :: ms' := by
          have := h
          simp only [Except.ok.injEq] at this
          exact this.symm
        obtain ⟨hmap, hall⟩ := ih hr
        have hfm : matchMigrationFile f ≠ none ∧
            validateSql parseOk (contents f) f = none := by
          unfold buildMigration at hb
          rcases hmm : matchMigrationFile f with _ | ⟨ds, nm⟩
          · rw [hmm] at hb; exact absurd hb (by simp)
          · rw [hmm] at hb
            dsimp only at hb
            rcases hvv : validateSql parseOk (contents f) f with _ | e'
            · exact ⟨by simp [hmm], rfl⟩
            · rw [hvv] at hb; exact absurd hb (by simp)
        have hmval : m = mkMig hashHex directory contents f := by
          rw [buildMigration_ok hfm.1 hfm.2] at hb
          simpa using hb.symm
        refine ⟨?_, ?_⟩
        · rw [hms, hmap, hmval]; rfl
        · intro g hg
          rcases List.mem_cons.mp hg with hg | hg
          · exact hg ▸ hfm
          · exact hall g hg

theorem buildAll_err_of_invalid {parseOk : String → Bool}
    {hashHex : String → String} {directory : String}
    {contents : String → String} {fs : List String}
    (hall : ∀ f ∈ fs, matchMigrationFile f ≠ none)
    (hbad : ∃ f ∈ fs, validateSql parseOk (contents f) f ≠ none) :
    ∃ f ∈ fs, ∃ e, validateSql parseOk (contents f) f = some e ∧
      buildAll parseOk hashHex directory contents fs =
        Except.error (sqlErrorMessage f e) := by
  induction fs with
  | nil => simp at hbad
  | cons f fs ih =>
    rcases hv : validateSql parseOk (contents f) f with _ | e
    · have hbad' : ∃ g ∈ fs, validateSql parseOk (contents g) g ≠ none := by
        rcases hbad with ⟨g, hg, hne⟩
        rcases List.mem_cons.mp hg with hg | hg
        · exact absurd (hg ▸ hv) hne
        · exact ⟨g, hg, hne⟩
      obtain ⟨g, hg, e, hge, hba⟩ :=
        ih (fun g hg => hall g (List.mem_cons_of_mem f hg)) hbad'
      refine ⟨g, List.mem_cons_of_mem f hg, e, hge, ?_⟩
      unfold buildAll
      rw [buildMigration_ok (hall f (List.mem_cons_self f fs)) hv, hba]
    · refine ⟨f, List.mem_cons_self f fs, e, hv, ?_⟩
      unfold buildAll
      rw [buildMigration_err (hall f (List.mem_cons_self f fs)) hv]

/-! ### Lemmas about the sorted valid file list -/

theorem mem_sortedValidFiles {files : List String} {f : String} :
    f ∈ sortedValidFiles files ↔ f ∈ files ∧ fileFilter f = none := by
  unfold sortedValidFiles
  rw [List.mem_insertionSort, List.mem_filter]
  simp [Option.isNone_iff_eq_none]

theorem sorted_sortedValidFiles (files : List String) :
    List.Pairwise (fun a b => fileNumber a ≤ fileNumber b)
      (sortedValidFiles files) :=
  @List.sorted_insertionSort String (fun a b => fileNumber a ≤ fileNumber b)
    (fun _ _ => Nat.decLe _ _) ⟨fun _ _ => Nat.le_total _ _⟩
    ⟨fun _ _ _ => Nat.le_trans⟩ _

theorem perm_sortedValidFiles (files : List String) :
    (sortedValidFiles files).Perm
      (files.filter (fun f => (fileFilter f).isNone)) :=
  List.perm_insertionSort _ _

theorem sorted_insertionSort_byNumber (l : List Migration) :
    List.Pairwise (fun a b : Migration => a.number ≤ b.number)
      (l.insertionSort (fun a b => a.number ≤ b.number)) :=
  @List.sorted_insertionSort Migration (fun a b => a.number ≤ b.number)
    (fun _ _ => Nat.decLe _ _) ⟨fun _ _ => Nat.le_total _ _⟩
    ⟨fun _ _ _ => Nat.le_trans⟩ l

theorem insertionSort_byNumber_eq_self {l : List Migration}
    (h : List.Pairwise (fun a b : Migration => a.number ≤ b.number) l) :
    l.insertionSort (fun a b => a.number ≤ b.number) = l :=
  List.Sorted.insertionSort_eq h

/-! ### Lemmas about the duplicate check -/

theorem lookup_append (a : Nat) (l₁ l₂ : List (Nat × String)) :
    (l₁ ++ l₂).lookup a = ((l₁.lookup a).or (l₂.lookup a)) := by
  induction l₁ with
  | nil => rfl
  | cons p l₁ ih =>
    rcases p with ⟨n, s⟩
    by_cases h : a = n
    · simp [List.lookup, h]
    · have hb : (a == n) = false := beq_eq_false_iff_ne.mpr h
      simp [List.lookup, hb, ih]

theorem mem_of_lookup {l : List (Nat × String)} {a : Nat} {b : String}
    (h : l.lookup a = some b) : (a, b) ∈ l := by
  induction l with
  | nil => exact absurd h (by simp [List.lookup])
  | cons p l ih =>
    rcases p with ⟨n, v⟩
    by_cases hn : a = n
    · subst hn
      simp only [List.lookup, beq_self_eq_true] at h
      have : v = b := by simpa using h
      subst this
      exact List.mem_cons_self _ _
    · have hb : (a == n) = false := beq_eq_false_iff_ne.mpr hn
      simp only [List.lookup, hb] at h
      exact List.mem_cons_of_mem _ (ih h)

theorem dupCheck_none_iff (l : List Migration) (seen : List (Nat × String)) :
    dupCheck l seen = none ↔
      ((l.map (fun m => m.number)).Nodup ∧
        ∀ m ∈ l, seen.lookup m.number = none) := by
  induction l generalizing seen with
  | nil => simp [dupCheck]
  | cons m l ih =>
    unfold dupCheck
    rcases hl : seen.lookup m.number with _ | nm
    · dsimp only
      rw [ih]
      constructor
      · rintro ⟨hnd, hall⟩
        have hsplit : ∀ m' ∈ l, seen.lookup m'.number = none ∧
            m'.number ≠ m.number := by
          intro m' hm'
          have := hall m' hm'
          rw [lookup_append] at this
          rcases hs : seen.lookup m'.number with _ | v
          · rw [hs] at this
            simp only [Option.or] at this
            refine ⟨rfl, ?_⟩
            intro heq
            rw [List.lookup, heq] at this
            simp at this
          · rw [hs] at this
            simp [Option.or] at this
        refine ⟨?_, ?_⟩
        · rw [List.map_cons, List.nodup_cons]
          refine ⟨?_, hnd⟩
          intro hmem
          rcases List.mem_map.mp hmem with ⟨m', hm', hnum⟩
          exact (hsplit m' hm').2 hnum
        · intro m' hm'
          rcases List.mem_cons.mp hm' with hm' | hm'
          · exact hm' ▸ hl
          · exact (hsplit m' hm').1
      · rintro ⟨hnd, hall⟩
        rw [List.map_cons, List.nodup_cons] at hnd
        refine ⟨hnd.2, ?_⟩
        intro m' hm'
        rw [lookup_append, hall m' (List.mem_cons_of_mem m hm')]
        have hne : m'.number ≠ m.number := by
          intro heq
          exact hnd.1 (heq ▸ List.mem_map_of_mem (fun x => x.number) hm')
        have hb : (m'.number == m.number) = false := beq_eq_false_iff_ne.mpr hne
        simp [Option.or, List.lookup, hb]
    · dsimp only
      constructor
      · intro h
        exact absurd h (by simp)
      · rintro ⟨hnd, hall⟩
        have := hall m (List.mem_cons_self m l)
        rw [hl] at this
        exact absurd this (by simp)

theorem dupCheck_some_ex {l : List Migration} {seen : List (Nat × String)}
    {msg : String} (h : dupCheck l seen = some msg) :
    ∃ n a b, msg = duplicateMessage n a b ∧
      (((n, a) ∈ seen ∧ ∃ m₂ ∈ l, m₂.number = n ∧ m₂.name = b) ∨
        ∃ m₁ m₂ : Migration, [m₁, m₂].Sublist l ∧
          m₁.number = n ∧ m₁.name = a ∧ m₂.number = n ∧ m₂.name = b) := by
  induction l generalizing seen with
  | nil => exact absurd h (by simp [dupCheck])
  | cons m l ih =>
    unfold dupCheck at h
    rcases hl : seen.lookup m.number with _ | a
    · rw [hl] at h
      dsimp only at h
      obtain ⟨n, a, b, hmsg, hcase⟩ := ih h
      refine ⟨n, a, b, hmsg, ?_⟩
      rcases hcase with ⟨hseen, m₂, hm₂, hnum, hname⟩ | ⟨m₁, m₂, hsub, h₁, h₂, h₃, h₄⟩
      · rcases List.mem_append.mp hseen with hs | hs
        · exact Or.inl ⟨hs, m₂, List.mem_cons_of_mem m hm₂, hnum, hname⟩
        · have hpair : (n, a) = (m.number, m.name) := by simpa using hs
          have h₁ : m.number = n := (congrArg Prod.fst hpair).symm
          have h₂ : m.name = a := (congrArg Prod.snd hpair).symm
          exact Or.inr ⟨m, m₂, (List.singleton_sublist.mpr hm₂).cons₂ m,
            h₁, h₂, hnum, hname⟩
      · exact Or.inr ⟨m₁, m₂, hsub.cons m, h₁, h₂, h₃, h₄⟩
    · rw [hl] at h
      dsimp only at h
      have hmsg : msg = duplicateMessage m.number a m.name := by
        simpa using h.symm
      exact ⟨m.number, a, m.name, hmsg,
        Or.inl ⟨mem_of_lookup hl,
          m, List.mem_cons_self m l, rfl, rfl⟩⟩

/-! ### Lemmas about the append-only check -/

theorem appendOnlyCheck_none_iff {M : Nat} {l : List Migration} :
    appendOnlyCheck M l = none ↔ ∀ m ∈ l, M < m.number := by
  induction l with
  | nil => simp [appendOnlyCheck]
  | cons m l ih =>
    unfold appendOnlyCheck
    by_cases h : m.number ≤ M
    · simp only [if_pos h]
      constructor
      · intro hc
        exact absurd hc (by simp)
      · intro hall
        exact absurd (hall m (List.mem_cons_self m l)) (by omega)
    · simp only [if_neg h, ih]
      constructor
      · intro hall
        intro m' hm'
        rcases List.mem_cons.mp hm' with hm' | hm'
        · subst hm'; omega
        · exact hall m' hm'
      · intro hall m' hm'
        exact hall m' (List.mem_cons_of_mem m hm')

theorem appendOnlyCheck_some_ex {M : Nat} {l : List Migration} {msg : String}
    (h : appendOnlyCheck M l = some msg) :
    ∃ l₁ m l₂, l = l₁ ++ m :: l₂ ∧ (∀ m' ∈ l₁, M < m'.number) ∧
      m.number ≤ M ∧ msg = appendOnlyMessage m.number M := by
  induction l with
  | nil => exact absurd h (by simp [appendOnlyCheck])
  | cons m l ih =>
    unfold appendOnlyCheck at h
    by_cases hle : m.number ≤ M
    · rw [if_pos hle] at h
      exact ⟨[], m, l, rfl, by simp, hle, by simpa using h.symm⟩
    · rw [if_neg hle] at h
      obtain ⟨l₁, m', l₂, hsplit, hpre, hle', hmsg⟩ := ih h
      refine ⟨m :: l₁, m', l₂, by rw [hsplit]; rfl, ?_, hle', hmsg⟩
      intro m'' hm''
      rcases List.mem_cons.mp hm'' with hm'' | hm''
      · subst hm''; omega
      · exact hpre m'' hm''

/-! ### Lemmas about the gap check -/

theorem gapCheck_none_iff {g : Nat} {l : List Migration} :
    gapCheck g l = none ↔
      List.Chain' (fun a b : Migration => b.number - a.number ≤ g) l := by
  induction l with
  | nil => simp [gapCheck]
  | cons m l ih =>
    cases l with
    | nil => simp [gapCheck]
    | cons m' l' =>
      unfold gapCheck
      by_cases h : g < m'.number - m.number
      · simp only [if_pos h]
        rw [List.chain'_cons]
        constructor
        · intro hc
          exact absurd hc (by simp)
        · rintro ⟨hab, _⟩
          omega
      · simp only [if_neg h]
        rw [List.chain'_cons, ih]
        constructor
        · intro hc
          exact ⟨by omega, hc⟩
        · rintro ⟨_, hc⟩
          exact hc

theorem gapCheck_some_ex {g : Nat} {l : List Migration} {msg : String}
    (h : gapCheck g l = some msg) :
    ∃ (l₁ : List Migration) (a b : Migration) (l₂ : List Migration),
      l = l₁ ++ a :: b :: l₂ ∧
      List.Chain' (fun x y : Migration => y.number - x.number ≤ g)
        (l₁ ++ [a]) ∧
      g < b.number - a.number ∧
      msg = gapMessage (b.number - a.number) a.number b.number g := by
  induction l with
  | nil => exact absurd h (by simp [gapCheck])
  | cons m l ih =>
    cases l with
    | nil => exact absurd h (by simp [gapCheck])
    | cons m' l' =>
      unfold gapCheck at h
      by_cases hg : g < m'.number - m.number
      · rw [if_pos hg] at h
        exact ⟨[], m, m', l', rfl, by simp, hg, by simpa using h.symm⟩
      · rw [if_neg hg] at h
        obtain ⟨l₁, a, b, l₂, hsplit, hchain, hgap, hmsg⟩ := ih h
        refine ⟨m :: l₁, a, b, l₂, by rw [hsplit]; rfl, ?_, hgap, hmsg⟩
        cases l₁ with
        | nil =>
          have ha : m' = a := by simpa using congrArg (fun t => t.head?) hsplit
          rw [List.nil_append] at hchain
          rw [List.cons_append, List.nil_append, List.chain'_cons]
          exact ⟨by rw [← ha]; omega, hchain⟩
        | cons x l₁' =>
          have hx : m' = x := by simpa using congrArg (fun t => t.head?) hsplit
          rw [List.cons_append] at hchain
          rw [List.cons_append, List.cons_append, List.chain'_cons]
          exact ⟨by rw [← hx]; omega, List.cons_append _ _ _ ▸ hchain⟩

/-! ### Pipeline lemmas for `scanMigrations` -/

theorem mkMig_number (hashHex : String → String) (directory : String)
    (contents : String → String) (f : String) :
    (mkMig hashHex directory contents f).number = fileNumber f := rfl

theorem scan_ignored (parseOk : String → Bool) (hashHex : String → String)
    (directory : String) (files : List String) (contents : String → String)
    (options : ScanOptions) :
    (scanMigrations parseOk hashHex directory files contents options).ignored
      = ignoredFilesOf files := by
  unfold scanMigrations
  rcases hb : buildAll parseOk hashHex directory contents
      (sortedValidFiles files) with e | migs <;> rfl

theorem scan_ok_parts {parseOk : String → Bool} {hashHex : String → String}
    {directory : String} {files : List String} {contents : String → String}
    {options : ScanOptions} {L : List Migration}
    (h : (scanMigrations parseOk hashHex directory files contents
      options).result = Except.ok L) :
    ∃ migs,
      buildAll parseOk hashHex directory contents (sortedValidFiles files) =
        Except.ok migs ∧
      dupCheck migs [] = none ∧
      L = scanNew (previousNumbersOf options) migs ∧
      appendOnlyCheck (maxPreviousOf options) L = none ∧
      gapCheck (options.maxGap.getD 50) L = none := by
  unfold scanMigrations at h
  rcases hb : buildAll parseOk hashHex directory contents
      (sortedValidFiles files) with e | migs
  · rw [hb] at h
    exact absurd h (by simp)
  · rw [hb] at h
    dsimp only at h
    unfold scanChecks at h
    rcases hd : dupCheck migs [] with _ | e
    · rw [hd] at h
      dsimp only at h
      rcases ha : appendOnlyCheck (maxPreviousOf options)
          (scanNew (previousNumbersOf options) migs) with _ | e
      · rw [ha] at h
        dsimp only at h
        rcases hg : gapCheck (options.maxGap.getD 50)
            (scanNew (previousNumbersOf options) migs) with _ | e
        · rw [hg] at h
          dsimp only at h
          have hL : scanNew (previousNumbersOf options) migs = L := by
            simpa using h
          exact ⟨migs, rfl, hd, hL.symm, hL ▸ ha, hL ▸ hg⟩
        · rw [hg] at h
          exact absurd h (by simp)
      · rw [ha] at h
        exact absurd h (by simp)
    · rw [hd] at h
      exact absurd h (by simp)

theorem scan_err_parts {parseOk : String → Bool} {hashHex : String → String}
    {directory : String} {files : List String} {contents : String → String}
    {options : ScanOptions} {err : String}
    (h : (scanMigrations parseOk hashHex directory files contents
      options).result = Except.error err) :
    (buildAll parseOk hashHex directory contents (sortedValidFiles files) =
      Except.error err) ∨
    ∃ migs,
      buildAll parseOk hashHex directory contents (sortedValidFiles files) =
        Except.ok migs ∧
      (dupCheck migs [] = some err ∨
        (dupCheck migs [] = none ∧
          (appendOnlyCheck (maxPreviousOf options)
              (scanNew (previousNumbersOf options) migs) = some err ∨
            (appendOnlyCheck (maxPreviousOf options)
                (scanNew (previousNumbersOf options) migs) = none ∧
              gapCheck (options.maxGap.getD 50)
                (scanNew (previousNumbersOf options) migs) = some err)))) := by
  unfold scanMigrations at h
  rcases hb : buildAll parseOk hashHex directory contents
      (sortedValidFiles files) with e | migs
  · rw [hb] at h
    dsimp only at h
    have : e = err := by simpa using h
    exact Or.inl (this ▸ rfl)
  · rw [hb] at h
    dsimp only at h
    unfold scanChecks at h
    rcases hd : dupCheck migs [] with _ | e
    · rw [hd] at h
      dsimp only at h
      rcases ha : appendOnlyCheck (maxPreviousOf options)
          (scanNew (previousNumbersOf options) migs) with _ | e
      · rw [ha] at h
        dsimp only at h
        rcases hg : gapCheck (options.maxGap.getD 50)
            (scanNew (previousNumbersOf options) migs) with _ | e
        · rw [hg] at h
          exact absurd h (by simp)
        · rw [hg] at h
          have : e = err := by simpa using h
          exact Or.inr ⟨migs, rfl, Or.inr ⟨hd, Or.inr ⟨ha, this ▸ hg⟩⟩⟩
      · rw [ha] at h
        have : e = err := by simpa using h
        exact Or.inr ⟨migs, rfl, Or.inr ⟨hd, Or.inl (this ▸ ha)⟩⟩
    · rw [hd] at h
      have : e = err := by simpa using h
      exact Or.inr ⟨migs, rfl, Or.inl (this ▸ hd)⟩

/-- The built migrations, in sorted-file order, are already sorted by
number, so the second sort of line 129 is the identity on them. -/
theorem sorted_buildList (hashHex : String → String) (directory : String)
    (contents : String → String) (files : List String) :
    List.Pairwise (fun a b : Migration => a.number ≤ b.number)
      ((sortedValidFiles files).map (mkMig hashHex directory contents)) := by
  rw [List.pairwise_map]
  exact sorted_sortedValidFiles files

theorem pairwise_lt_of_le_nodup {l : List Migration}
    (hle : List.Pairwise (fun a b : Migration => a.number ≤ b.number) l)
    (hnd : (l.map (fun m => m.number)).Nodup) :
    List.Pairwise (fun a b : Migration => a.number < b.number) l := by
  have hne : List.Pairwise (fun a b : Migration => a.number ≠ b.number) l :=
    List.pairwise_map.mp hnd
  exact (hle.and hne).imp (fun h => Nat.lt_of_le_of_ne h.1 h.2)

theorem mem_scanNew {previousNumbers : List Nat} {migs : List Migration}
    {m : Migration} :
    m ∈ scanNew previousNumbers migs ↔
      m ∈ migs ∧ m.number ∉ previousNumbers := by
  unfold scanNew
  rw [List.mem_filter, List.mem_insertionSort]
  constructor
  · rintro ⟨hm, hp⟩
    refine ⟨hm, ?_⟩
    intro hmem
    rw [Bool.not_eq_eq_eq_not, Bool.not_true] at hp
    exact absurd (List.elem_iff.mpr hmem) (by simp [List.contains] at hp ⊢; exact hp)
  · rintro ⟨hm, hp⟩
    refine ⟨hm, ?_⟩
    simp only [Bool.not_eq_eq_eq_not, Bool.not_true]
    rcases hc : previousNumbers.contains m.number with _ | _
    · rfl
    · exact absurd (List.elem_iff.mp hc) hp

theorem sorted_scanNew {previousNumbers : List Nat} {migs : List Migration}
    (hnd : dupCheck migs [] = none) :
    List.Pairwise (fun a b : Migration => a.number < b.number)
      (scanNew previousNumbers migs) := by
  have hnodup : (migs.map (fun m => m.number)).Nodup :=
    ((dupCheck_none_iff migs []).mp hnd).1
  have hsorted := sorted_insertionSort_byNumber migs
  have hnodup' : ((migs.insertionSort
      (fun a b => a.number ≤ b.number)).map (fun m => m.number)).Nodup := by
    refine (List.Perm.nodup_iff ?_).mpr hnodup
    exact (List.perm_insertionSort _ _).map _
  exact (pairwise_lt_of_le_nodup hsorted hnodup').filter _

/-! ### Message shape lemmas (the four fatal errors have distinct leading
characters, so one kind of failure can never masquerade as another) -/

theorem appendOnlyMessage_head (n M : Nat) :
    (appendOnlyMessage n M).data.head? = some ('I') := by
  unfold appendOnlyMessage
  simp only [String.data_append]
  rfl

theorem gapMessage_head (g a b mg : Nat) :
    (gapMessage g a b mg).data.head? = some ('M') := by
  unfold gapMessage
  simp only [String.data_append]
  rfl

theorem appendOnlyMessage_ne_gapMessage (n M g a b mg : Nat) :
    appendOnlyMessage n M ≠ gapMessage g a b mg := by
  intro h
  have h' := congrArg (fun s : String => s.data.head?) h
  dsimp only at h'
  rw [appendOnlyMessage_head, gapMessage_head] at h'
  exact absurd h' (by decide)

theorem gapCheck_cons₂ (g : Nat) (m₁ m₂ : Migration) (rest : List Migration) :
    gapCheck g (m₁ :: m₂ :: rest) =
      if g < m₂.number - m₁.number then
        some (gapMessage (m₂.number - m₁.number) m₁.number m₂.number g)
      else gapCheck g (m₂ :: rest) := rfl

/-- Converse of `gapCheck_some_ex`: the first offending adjacent pair
determines the error. -/
theorem gapCheck_some_of_first {g : Nat} {l₁ : List Migration}
    {l l₂ : List Migration} {a b : Migration}
    (hsplit : l = l₁ ++ a :: b :: l₂)
    (hpre : List.Chain' (fun x y : Migration => y.number - x.number ≤ g)
      (l₁ ++ [a]))
    (hgap : g < b.number - a.number) :
    gapCheck g l = some (gapMessage (b.number - a.number) a.number b.number g)
    := by
  induction l₁ generalizing l with
  | nil =>
    rw [List.nil_append] at hsplit
    subst hsplit
    rw [gapCheck_cons₂, if_pos hgap]
  | cons x l₁' ih =>
    rw [List.cons_append] at hsplit
    subst hsplit
    rcases l₁' with _ | ⟨z, l₁''⟩
    · have hxa : a.number - x.number ≤ g := by
        rw [List.cons_append, List.nil_append] at hpre
        exact (List.chain'_cons.mp hpre).1
      rw [List.nil_append, gapCheck_cons₂, if_neg (by omega)]
      exact ih (List.nil_append _).symm (by simp)
    · have hpre' : List.Chain'
          (fun x y : Migration => y.number - x.number ≤ g)
          (x :: z :: (l₁'' ++ [a])) := by
        rw [List.cons_append, List.cons_append] at hpre
        exact hpre
      have hxz : z.number - x.number ≤ g := (List.chain'_cons.mp hpre').1
      rw [List.cons_append, gapCheck_cons₂, if_neg (by omega)]
      refine ih (List.cons_append _ _ _).symm ?_
      rw [List.cons_append]
      exact (List.chain'_cons.mp hpre').2

/-! ### Claim C4 -/

/-- **C4.** For every valid input (directory listing, previously recorded
set), a successful `scanMigrations` returns exactly the new migrations —
those whose number is not among the previously recorded numbers — sorted
strictly ascending by `number` (hence no two equal), and already-recorded
numbers never appear in the returned list. -/
theorem scan_returns_exactly_new_sorted
    (parseOk : String → Bool) (hashHex : String → String)
    (directory : String) (files : List String) (contents : String → String)
    (options : ScanOptions) (L : List Migration)
    (h : (scanMigrations parseOk hashHex directory files contents
      options).result = Except.ok L) :
    List.Pairwise (fun a b : Migration => a.number < b.number) L ∧
    (∀ m ∈ L, m.number ∉ previousNumbersOf options) ∧
    (∀ n : Nat, (∃ m ∈ L, m.number = n) ↔
      ∃ f ∈ files, fileFilter f = none ∧ fileNumber f = n ∧
        n ∉ previousNumbersOf options) := by
  obtain ⟨migs, hb, hd, hL, _, _⟩ := scan_ok_parts h
  obtain ⟨hmap, _⟩ := buildAll_inv hb
  subst hmap
  refine ⟨?_, ?_, ?_⟩
  · rw [hL]
    exact sorted_scanNew hd
  · intro m hm
    exact (mem_scanNew.mp (hL ▸ hm)).2
  · intro n
    constructor
    · rintro ⟨m, hm, rfl⟩
      obtain ⟨hmig, hnp⟩ := mem_scanNew.mp (hL ▸ hm)
      obtain ⟨f, hf, rfl⟩ := List.mem_map.mp hmig
      have hf' := mem_sortedValidFiles.mp hf
      exact ⟨f, hf'.1, hf'.2, rfl, hnp⟩
    · rintro ⟨f, hf, hkept, rfl, hnp⟩
      refine ⟨mkMig hashHex directory contents f, ?_, rfl⟩
      rw [hL]
      exact mem_scanNew.mpr
        ⟨List.mem_map_of_mem _ (mem_sortedValidFiles.mpr ⟨hf, hkept⟩), hnp⟩

/-- Witness for C4 at a concrete input: scanning `001-a.sql`, `003-b.sql`
against a previously recorded migration 1 returns exactly migration 3,
strictly sorted. -/
theorem scan_returns_exactly_new_sorted_witness :
    ((scanMigrations acceptAll identityHash ("d")
        [("001-a.sql"), ("003-b.sql")] (fun _ => ("SELECT 1"))
        { previousMigrations := some [rowMig 1 ("a")] }).result
      = Except.ok
          [scannedMig 3 ("b") ("d/003-b.sql") ("SELECT 1") ("SELECT 1")]) ∧
    List.Pairwise (fun a b : Migration => a.number < b.number)
      [scannedMig 3 ("b") ("d/003-b.sql") ("SELECT 1") ("SELECT 1")] :=
  ⟨rfl,
    (scan_returns_exactly_new_sorted acceptAll identityHash ("d")
      [("001-a.sql"), ("003-b.sql")] (fun _ => ("SELECT 1"))
      { previousMigrations := some [rowMig 1 ("a")] }
      [scannedMig 3 ("b") ("d/003-b.sql") ("SELECT 1") ("SELECT 1")] rfl).1⟩

/-! ### Shared setup for the check-stage claims -/

theorem buildAll_of_valid {parseOk : String → Bool} {hashHex : String → String}
    {directory : String} {contents : String → String} {files : List String}
    (hsql : ∀ f ∈ files, fileFilter f = none →
      validateSql parseOk (contents f) f = none) :
    buildAll parseOk hashHex directory contents (sortedValidFiles files) =
      Except.ok (builtMigrations hashHex directory contents files) := by
  apply buildAll_ok
  intro f hf
  have h' := mem_sortedValidFiles.mp hf
  obtain ⟨pr, hm, _⟩ := kept_match h'.2
  exact ⟨by simp [hm], hsql f h'.1 h'.2⟩

theorem dupCheck_of_nodup {hashHex : String → String} {directory : String}
    {contents : String → String} {files : List String}
    (hnd : ((sortedValidFiles files).map fileNumber).Nodup) :
    dupCheck (builtMigrations hashHex directory contents files) [] = none := by
  rw [dupCheck_none_iff]
  refine ⟨?_, fun m _ => rfl⟩
  unfold builtMigrations
  rw [List.map_map]
  exact hnd

theorem scan_result_checks {parseOk : String → Bool}
    {hashHex : String → String} {directory : String}
    {contents : String → String} {files : List String}
    (options : ScanOptions)
    (hnd : ((sortedValidFiles files).map fileNumber).Nodup)
    (hsql : ∀ f ∈ files, fileFilter f = none →
      validateSql parseOk (contents f) f = none) :
    (scanMigrations parseOk hashHex directory files contents options).result =
      match appendOnlyCheck (maxPreviousOf options)
          (scanNewOf hashHex directory contents files options) with
      | some e => Except.error e
      | none =>
        match gapCheck (options.maxGap.getD 50)
            (scanNewOf hashHex directory contents files options) with
        | some e => Except.error e
        | none =>
          Except.ok (scanNewOf hashHex directory contents files options) := by
  unfold scanMigrations
  rw [buildAll_of_valid hsql]
  dsimp only
  unfold scanChecks
  rw [dupCheck_of_nodup hnd]
  rfl

theorem mem_scanNewOf {hashHex : String → String} {directory : String}
    {contents : String → String} {files : List String}
    {options : ScanOptions} {m : Migration} :
    m ∈ scanNewOf hashHex directory contents files options ↔
      (∃ f ∈ files, fileFilter f = none ∧
        m = mkMig hashHex directory contents f) ∧
      m.number ∉ previousNumbersOf options := by
  unfold scanNewOf
  rw [mem_scanNew]
  unfold builtMigrations
  constructor
  · rintro ⟨hm, hp⟩
    obtain ⟨f, hf, rfl⟩ := List.mem_map.mp hm
    have h' := mem_sortedValidFiles.mp hf
    exact ⟨⟨f, h'.1, h'.2, rfl⟩, hp⟩
  · rintro ⟨⟨f, hf, hkept, rfl⟩, hp⟩
    exact ⟨List.mem_map_of_mem _ (mem_sortedValidFiles.mpr ⟨hf, hkept⟩), hp⟩

theorem appendOnly_none_of_higher {hashHex : String → String}
    {directory : String} {contents : String → String} {files : List String}
    {options : ScanOptions}
    (happ : ∀ f ∈ files, fileFilter f = none →
      fileNumber f ∉ previousNumbersOf options →
      maxPreviousOf options < fileNumber f) :
    appendOnlyCheck (maxPreviousOf options)
      (scanNewOf hashHex directory contents files options) = none := by
  rw [appendOnlyCheck_none_iff]
  intro m hm
  obtain ⟨⟨f, hf, hkept, rfl⟩, hp⟩ := mem_scanNewOf.mp hm
  exact happ f hf hkept hp

/-! ### Claim C5 -/

/-- **C5.** With previously recorded maximum `M = maxPreviousOf options`
(`0` when the set is empty), and with duplicate and SQL-syntax failures
excluded, the scan fails with the append-only error — naming the offending
number and `M` — if and only if some new migration (a kept file whose
number is not previously recorded) has number `≤ M`; otherwise the
append-only check passes and the scan can only succeed or fail with a
later (gap) error, which is never an append-only message. -/
theorem scan_append_only_iff (parseOk : String → Bool)
    (hashHex : String → String) (directory : String) (files : List String)
    (contents : String → String) (options : ScanOptions)
    (hnd : ((sortedValidFiles files).map fileNumber).Nodup)
    (hsql : ∀ f ∈ files, fileFilter f = none →
      validateSql parseOk (contents f) f = none) :
    ((∃ f ∈ files, fileFilter f = none ∧
        fileNumber f ∉ previousNumbersOf options ∧
        fileNumber f ≤ maxPreviousOf options) →
      ∃ n, n ≤ maxPreviousOf options ∧
        (∃ f ∈ files, fileFilter f = none ∧ fileNumber f = n ∧
          n ∉ previousNumbersOf options) ∧
        (scanMigrations parseOk hashHex directory files contents
          options).result =
          Except.error (appendOnlyMessage n (maxPreviousOf options))) ∧
    ((∀ f ∈ files, fileFilter f = none →
        fileNumber f ∉ previousNumbersOf options →
        maxPreviousOf options < fileNumber f) →
      (∃ L, (scanMigrations parseOk hashHex directory files contents
          options).result = Except.ok L) ∨
        ∃ g a b, (scanMigrations parseOk hashHex directory files contents
          options).result =
          Except.error (gapMessage g a b (options.maxGap.getD 50))) ∧
    (∀ n M g a b mg : Nat, appendOnlyMessage n M ≠ gapMessage g a b mg) := by
  refine ⟨?_, ?_, fun n M g a b mg => appendOnlyMessage_ne_gapMessage n M g a b mg⟩
  · rintro ⟨f, hf, hkept, hnp, hle⟩
    have hmem : mkMig hashHex directory contents f ∈
        scanNewOf hashHex directory contents files options :=
      mem_scanNewOf.mpr ⟨⟨f, hf, hkept, rfl⟩, hnp⟩
    rcases ha : appendOnlyCheck (maxPreviousOf options)
        (scanNewOf hashHex directory contents files options) with _ | msg
    · have := appendOnlyCheck_none_iff.mp ha _ hmem
      rw [mkMig_number] at this
      omega
    · obtain ⟨l₁, m', l₂, hsplit, _, hle', hmsg⟩ := appendOnlyCheck_some_ex ha
      have hm' : m' ∈ scanNewOf hashHex directory contents files options := by
        rw [hsplit]
        exact List.mem_append_right l₁ (List.mem_cons_self m' l₂)
      obtain ⟨⟨f', hf', hkept', rfl⟩, hnp'⟩ := mem_scanNewOf.mp hm'
      refine ⟨fileNumber f', hle', ⟨f', hf', hkept', rfl, hnp'⟩, ?_⟩
      rw [scan_result_checks options hnd hsql, ha]
      rw [hmsg]
      rfl
  · intro happ
    rw [scan_result_checks options hnd hsql,
      appendOnly_none_of_higher happ]
    rcases hg : gapCheck (options.maxGap.getD 50)
        (scanNewOf hashHex directory contents files options) with _ | e
    · exact Or.inl ⟨_, rfl⟩
    · obtain ⟨l₁, a, b, l₂, _, _, _, hmsg⟩ := gapCheck_some_ex hg
      exact Or.inr ⟨b.number - a.number, a.number, b.number, by rw [hmsg]⟩

/-- Witness for C5: scanning `005-x.sql` when migration 10 is already
recorded fails with the append-only error naming 5 and 10 (scenario C of
the specification). -/
theorem scan_append_only_iff_witness :
    ∃ n, n ≤ maxPreviousOf { previousMigrations := some [rowMig 10 ("t")] } ∧
      (∃ f ∈ [("005-x.sql"), ("010-y.sql")], fileFilter f = none ∧
        fileNumber f = n ∧
        n ∉ previousNumbersOf
          { previousMigrations := some [rowMig 10 ("t")] }) ∧
      (scanMigrations acceptAll identityHash ("d")
        [("005-x.sql"), ("010-y.sql")] (fun _ => ("SELECT 1"))
        { previousMigrations := some [rowMig 10 ("t")] }).result =
        Except.error (appendOnlyMessage 5
          (maxPreviousOf { previousMigrations := some [rowMig 10 ("t")] })) := by
  have h := (scan_append_only_iff acceptAll identityHash ("d")
    [("005-x.sql"), ("010-y.sql")] (fun _ => ("SELECT 1"))
    { previousMigrations := some [rowMig 10 ("t")] }
    (by decide) (by decide)).1
    ⟨("005-x.sql"), by decide, by decide, by decide, by decide⟩
  obtain ⟨n, hn, hex, hres⟩ := h
  have hn5 : n = 5 := by
    obtain ⟨f, hf, hkept, hnum, hnp⟩ := hex
    rcases List.mem_cons.mp hf with rfl | hf
    · rw [← hnum]
      decide
    · rcases List.mem_cons.mp hf with rfl | hf
      · rw [← hnum] at hnp
        exact absurd (by decide) hnp
      · exact absurd hf (List.not_mem_nil f)
  subst hn5
  exact ⟨5, hn, hex, hres⟩

/-! ### Claim C6 -/

/-- **C6.** With duplicate, SQL-syntax and append-only failures excluded,
the scan fails fatally for the first adjacent pair of new migrations whose
difference exceeds `maxGap` (`options.maxGap.getD 50`, i.e. default 50 when
not supplied), with an error naming the gap size, both migration numbers
and the configured maximum; if no adjacent pair of new migrations differs
by more than `maxGap`, the gap check passes and the scan succeeds. -/
theorem scan_gap_check_first (parseOk : String → Bool)
    (hashHex : String → String) (directory : String) (files : List String)
    (contents : String → String) (options : ScanOptions)
    (hnd : ((sortedValidFiles files).map fileNumber).Nodup)
    (hsql : ∀ f ∈ files, fileFilter f = none →
      validateSql parseOk (contents f) f = none)
    (happ : ∀ f ∈ files, fileFilter f = none →
      fileNumber f ∉ previousNumbersOf options →
      maxPreviousOf options < fileNumber f) :
    (∀ (l₁ : List Migration) (a b : Migration) (l₂ : List Migration),
      scanNewOf hashHex directory contents files options =
        l₁ ++ a :: b :: l₂ →
      List.Chain' (fun x y : Migration =>
        y.number - x.number ≤ options.maxGap.getD 50) (l₁ ++ [a]) →
      options.maxGap.getD 50 < b.number - a.number →
      (scanMigrations parseOk hashHex directory files contents
        options).result =
        Except.error (gapMessage (b.number - a.number) a.number b.number
          (options.maxGap.getD 50))) ∧
    (List.Chain' (fun x y : Migration =>
        y.number - x.number ≤ options.maxGap.getD 50)
      (scanNewOf hashHex directory contents files options) →
      (scanMigrations parseOk hashHex directory files contents
        options).result =
        Except.ok (scanNewOf hashHex directory contents files options)) := by
  constructor
  · intro l₁ a b l₂ hsplit hpre hgap
    rw [scan_result_checks options hnd hsql,
      appendOnly_none_of_higher happ]
    rw [gapCheck_some_of_first hsplit hpre hgap]
  · intro hchain
    rw [scan_result_checks options hnd hsql,
      appendOnly_none_of_higher happ]
    rw [gapCheck_none_iff.mpr hchain]

/-- Witness for C6: files `001-a.sql`, `100-b.sql` with the default maximum
gap of 50 fail with the gap error naming 99, 1, 100 and 50 (scenario B of
the specification). -/
theorem scan_gap_check_first_witness :
    (scanMigrations acceptAll identityHash ("d")
      [("001-a.sql"), ("100-b.sql")] (fun _ => ("SELECT 1")) {}).result =
      Except.error (gapMessage 99 1 100 50) :=
  (scan_gap_check_first acceptAll identityHash ("d")
    [("001-a.sql"), ("100-b.sql")] (fun _ => ("SELECT 1")) {}
    (by decide) (by decide) (by decide)).1
    [] (scannedMig 1 ("a") ("d/001-a.sql") ("SELECT 1") ("SELECT 1"))
    (scannedMig 100 ("b") ("d/100-b.sql") ("SELECT 1") ("SELECT 1")) []
    (by rfl) (by simp) (by decide)

/-! ### Claim C7 -/

theorem not_nodup_of_dup_files {hashHex : String → String}
    {directory : String} {contents : String → String} {files : List String}
    {f g : String} (hf : f ∈ files) (hg : g ∈ files) (hfg : f ≠ g)
    (hkf : fileFilter f = none) (hkg : fileFilter g = none)
    (heq : fileNumber f = fileNumber g) :
    ¬ ((builtMigrations hashHex directory contents files).map
      (fun m => m.number)).Nodup := by
  intro hnd
  unfold builtMigrations at hnd
  rw [List.map_map] at hnd
  exact hfg (List.inj_on_of_nodup_map hnd
    (mem_sortedValidFiles.mpr ⟨hf, hkf⟩)
    (mem_sortedValidFiles.mpr ⟨hg, hkg⟩) heq)

/-- The number is rendered zero-padded to at least three digits in the
duplicate error. -/
theorem padStart3_length (n : Nat) : 3 ≤ (padStart3 n).length := by
  unfold padStart3
  by_cases h : (toString n).length < 3
  · rw [if_pos h, String.length_append]
    have : (String.mk (List.replicate (3 - (toString n).length) '0')).length
        = 3 - (toString n).length := List.length_replicate _ _
    omega
  · rw [if_neg h]
    omega

/-- **C7.** If two distinct files that pass filtering map to the same
migration number, the scan fails fatally — never silently resolving the
collision — and (when no SQL-syntax failure preempts it) the error is the
duplicate message, which names the colliding number zero-padded to at
least three digits together with the names of two colliding entries. -/
theorem scan_duplicate_number_fatal (parseOk : String → Bool)
    (hashHex : String → String) (directory : String) (files : List String)
    (contents : String → String) (options : ScanOptions) (f g : String)
    (hf : f ∈ files) (hg : g ∈ files) (hfg : f ≠ g)
    (hkf : fileFilter f = none) (hkg : fileFilter g = none)
    (heq : fileNumber f = fileNumber g) :
    (∃ err, (scanMigrations parseOk hashHex directory files contents
      options).result = Except.error err) ∧
    ((∀ f' ∈ files, fileFilter f' = none →
        validateSql parseOk (contents f') f' = none) →
      ∃ (n : Nat) (a b : String) (m₁ m₂ : Migration),
        [m₁, m₂].Sublist (builtMigrations hashHex directory contents files) ∧
        m₁.number = n ∧ m₁.name = a ∧ m₂.number = n ∧ m₂.name = b ∧
        (scanMigrations parseOk hashHex directory files contents
          options).result = Except.error (duplicateMessage n a b)) ∧
    (∀ n : Nat, 3 ≤ (padStart3 n).length) := by
  refine ⟨?_, ?_, padStart3_length⟩
  · unfold scanMigrations
    rcases hb : buildAll parseOk hashHex directory contents
        (sortedValidFiles files) with e | migs
    · exact ⟨e, rfl⟩
    · obtain ⟨hmap, _⟩ := buildAll_inv hb
      subst hmap
      dsimp only
      unfold scanChecks
      rcases hd : dupCheck
          ((sortedValidFiles files).map (mkMig hashHex directory contents))
          [] with _ | e
      · exact absurd ((dupCheck_none_iff _ _).mp hd).1
          (not_nodup_of_dup_files hf hg hfg hkf hkg heq)
      · exact ⟨e, rfl⟩
  · intro hsql
    have hb := @buildAll_of_valid parseOk hashHex directory _ _ hsql
    rcases hd : dupCheck (builtMigrations hashHex directory contents files)
        [] with _ | msg
    · exact absurd ((dupCheck_none_iff _ _).mp hd).1
        (not_nodup_of_dup_files hf hg hfg hkf hkg heq)
    · obtain ⟨n, a, b, hmsg, hcase⟩ := dupCheck_some_ex hd
      rcases hcase with ⟨hmem, -⟩ | ⟨m₁, m₂, hsub, h₁, h₂, h₃, h₄⟩
      · exact absurd hmem (List.not_mem_nil _)
      · refine ⟨n, a, b, m₁, m₂, hsub, h₁, h₂, h₃, h₄, ?_⟩
        unfold scanMigrations
        rw [hb]
        dsimp only
        unfold scanChecks
        rw [hd, hmsg]

/-- Witness for C7: `001-a.sql` and `001-b.sql` collide on number 1
(scenario D of the specification). -/
theorem scan_duplicate_number_fatal_witness :
    (∃ err, (scanMigrations acceptAll identityHash ("d")
      [("001-a.sql"), ("001-b.sql")] (fun _ => ("SELECT 1")) {}).result =
      Except.error err) ∧
    (∃ (n : Nat) (a b : String) (m₁ m₂ : Migration),
      [m₁, m₂].Sublist (builtMigrations identityHash ("d")
        (fun _ => ("SELECT 1")) [("001-a.sql"), ("001-b.sql")]) ∧
      m₁.number = n ∧ m₁.name = a ∧ m₂.number = n ∧ m₂.name = b ∧
      (scanMigrations acceptAll identityHash ("d")
        [("001-a.sql"), ("001-b.sql")] (fun _ => ("SELECT 1")) {}).result =
        Except.error (duplicateMessage n a b)) := by
  have h := scan_duplicate_number_fatal acceptAll identityHash ("d")
    [("001-a.sql"), ("001-b.sql")] (fun _ => ("SELECT 1")) {}
    ("001-a.sql") ("001-b.sql") (by decide) (by decide) (by decide)
    (by decide) (by decide) (by decide)
  exact ⟨h.1, h.2.1 (by decide)⟩

/-! ### Claim C8 -/

theorem validateSql_some_eq {parseOk : String → Bool} {sql f : String}
    {e : SqlError} (h : validateSql parseOk sql f = some e) :
    e = { message := ("syntax error"), fileName := some f } := by
  unfold validateSql at h
  split at h
  · exact absurd h (by simp)
  split at h
  · exact absurd h (by simp)
  · simpa using h.symm

/-- **C8.** Every file that passes filtering has its full content read and
passed to the SQL-syntax validator: content is accepted exactly when it is
blank (empty or whitespace-only) or the external parser accepts it, and
whenever some kept file's content is reported invalid the whole scan fails
immediately with an error built from the failing filename and the
validator's message (`"syntax error"`, no line number), while the ignored
warnings remain exactly the filtered files. -/
theorem scan_sql_validation_fatal (parseOk : String → Bool)
    (hashHex : String → String) (directory : String) (files : List String)
    (contents : String → String) (options : ScanOptions) :
    (∀ sql f : String, validateSql parseOk sql f = none ↔
      (jsTrim sql = ("") ∨ parseOk sql = true)) ∧
    (∀ f ∈ files, fileFilter f = none →
      (validateSql parseOk (contents f) f).isSome →
      ∃ g, g ∈ files ∧ fileFilter g = none ∧
        validateSql parseOk (contents g) g =
          some { message := ("syntax error"), fileName := some g } ∧
        (scanMigrations parseOk hashHex directory files contents
          options).result =
          Except.error (sqlErrorMessage g
            { message := ("syntax error"), fileName := some g }) ∧
        sqlErrorMessage g { message := ("syntax error"), fileName := some g }
          = ("Invalid SQL in migration ") ++ g ++ (": ") ++
            ("syntax error")) ∧
    (scanMigrations parseOk hashHex directory files contents
      options).ignored = ignoredFilesOf files := by
  refine ⟨?_, ?_, scan_ignored _ _ _ _ _ _⟩
  · intro sql f
    unfold validateSql
    by_cases h1 : jsTrim sql = ("")
    · simp [h1]
    · rw [if_neg h1]
      by_cases h2 : parseOk sql
      · simp [h1, h2]
      · simp [h1, h2]
  · intro f hf hkf hbad
    have hall : ∀ f' ∈ sortedValidFiles files, matchMigrationFile f' ≠ none
        := by
      intro f' hf'
      have h' := mem_sortedValidFiles.mp hf'
      obtain ⟨pr, hm, _⟩ := kept_match h'.2
      simp [hm]
    have hbad' : ∃ f' ∈ sortedValidFiles files,
        validateSql parseOk (contents f') f' ≠ none := by
      refine ⟨f, mem_sortedValidFiles.mpr ⟨hf, hkf⟩, ?_⟩
      rcases hv : validateSql parseOk (contents f) f with _ | e
      · rw [hv] at hbad
        exact absurd hbad (by simp)
      · simp
    obtain ⟨g, hg, e, hge, hba⟩ :=
      @buildAll_err_of_invalid _ hashHex directory _ _ hall hbad'
    have hge' : e = { message := ("syntax error"), fileName := some g } :=
      validateSql_some_eq hge
    have hg' := mem_sortedValidFiles.mp hg
    refine ⟨g, hg'.1, hg'.2, hge' ▸ hge, ?_, ?_⟩
    · unfold scanMigrations
      rw [hba]
      rw [hge']
    · unfold sqlErrorMessage
      dsimp only
      rw [String.append_empty]

/-- Witness for C8: a kept file whose content the parser rejects makes the
scan fail with the `Invalid SQL in migration …: syntax error` message,
while blank content is always accepted. -/
theorem scan_sql_validation_fatal_witness :
    (validateSql (fun _ => false) ("  \n ") ("001-x.sql") = none ∨
      jsTrim ("  \n ") = ("")) ∧
    ∃ g, g ∈ [("001-x.sql")] ∧ fileFilter g = none ∧
      validateSql (fun _ => false) ((fun _ => ("NOT SQL")) g) g =
        some { message := ("syntax error"), fileName := some g } ∧
      (scanMigrations (fun _ => false) identityHash ("d") [("001-x.sql")]
        (fun _ => ("NOT SQL")) {}).result =
        Except.error (sqlErrorMessage g
          { message := ("syntax error"), fileName := some g }) ∧
      sqlErrorMessage g { message := ("syntax error"), fileName := some g }
        = ("Invalid SQL in migration ") ++ g ++ (": ") ++ ("syntax error")
    := by
  have h := scan_sql_validation_fatal (fun _ => false) identityHash ("d")
    [("001-x.sql")] (fun _ => ("NOT SQL")) {}
  refine ⟨?_, h.2.1 ("001-x.sql") (by decide) (by decide) (by decide)⟩
  exact Or.inl ((h.1 ("  \n ") ("001-x.sql")).mpr (Or.inl (by decide)))

/-! ### Claim C9 -/

theorem buildAll_congr {parseOk : String → Bool} {hashHex : String → String}
    {directory : String} {contents₁ contents₂ : String → String}
    {fs : List String} (h : ∀ f ∈ fs, contents₁ f = contents₂ f) :
    buildAll parseOk hashHex directory contents₁ fs =
      buildAll parseOk hashHex directory contents₂ fs := by
  induction fs with
  | nil => rfl
  | cons f fs ih =>
    unfold buildAll
    have hf : contents₁ f = contents₂ f := h f (List.mem_cons_self f fs)
    have hmig : buildMigration parseOk hashHex directory contents₁ f =
        buildMigration parseOk hashHex directory contents₂ f := by
      unfold buildMigration
      rw [hf]
    rw [hmig, ih (fun g hg => h g (List.mem_cons_of_mem f hg))]

/-- **C9.** Files violating a filtering rule are never fatal: each is
recorded with its reason in the single batched warning; its content is
never read and never influences the scan (two content functions agreeing on
the kept files produce identical outcomes); and a scan over a directory
containing only ignorable files returns the empty list successfully. -/
theorem scan_ignored_files_never_fatal (parseOk : String → Bool)
    (hashHex : String → String) (directory : String) (files : List String)
    (options : ScanOptions) :
    (∀ contents : String → String, ∀ f ∈ files, ∀ r : String,
      fileFilter f = some r →
      (f, r) ∈ (scanMigrations parseOk hashHex directory files contents
        options).ignored) ∧
    (∀ contents₁ contents₂ : String → String,
      (∀ f ∈ files, fileFilter f = none → contents₁ f = contents₂ f) →
      scanMigrations parseOk hashHex directory files contents₁ options =
        scanMigrations parseOk hashHex directory files contents₂ options) ∧
    (∀ contents : String → String,
      (∀ f ∈ files, fileFilter f ≠ none) →
      scanMigrations parseOk hashHex directory files contents options =
        ⟨ignoredFilesOf files, Except.ok []⟩) := by
  refine ⟨?_, ?_, ?_⟩
  · intro contents f hf r hr
    rw [scan_ignored]
    exact List.mem_filterMap.mpr ⟨f, hf, by rw [hr]; rfl⟩
  · intro contents₁ contents₂ hagree
    have hb : buildAll parseOk hashHex directory contents₁
        (sortedValidFiles files) =
        buildAll parseOk hashHex directory contents₂
          (sortedValidFiles files) := by
      apply buildAll_congr
      intro f hf
      have h' := mem_sortedValidFiles.mp hf
      exact hagree f h'.1 h'.2
    unfold scanMigrations
    rw [hb]
  · intro contents hignored
    have hsv : sortedValidFiles files = [] := by
      unfold sortedValidFiles
      have : files.filter (fun f => (fileFilter f).isNone) = [] := by
        rw [List.filter_eq_nil_iff]
        intro f hf
        have := hignored f hf
        rcases hff : fileFilter f with _ | r
        · exact absurd hff this
        · simp [hff]
      rw [this]
      rfl
    unfold scanMigrations
    rw [hsv]
    rfl

/-- Witness for C9: a directory holding only a hidden file and a `.bak`
file is scanned successfully into an empty list, with both files warned
about. -/
theorem scan_ignored_files_never_fatal_witness :
    ((".001-h.sql"), ("Hidden files are not allowed")) ∈
      (scanMigrations acceptAll identityHash ("d")
        [(".001-h.sql"), ("002-t.sql.bak")] (fun _ => ("x")) {}).ignored ∧
    scanMigrations acceptAll identityHash ("d")
      [(".001-h.sql"), ("002-t.sql.bak")] (fun _ => ("x")) {} =
      ⟨ignoredFilesOf [(".001-h.sql"), ("002-t.sql.bak")], Except.ok []⟩ := by
  have h := scan_ignored_files_never_fatal acceptAll identityHash ("d")
    [(".001-h.sql"), ("002-t.sql.bak")] {}
  exact ⟨h.1 (fun _ => ("x")) (".001-h.sql") (by decide)
      ("Hidden files are not allowed") (by decide),
    h.2.2 (fun _ => ("x")) (by decide)⟩

/-! ### Claim C1 (refuted: the code keeps committed ledger inserts after a
rollback) -/

/-- **C1 is violated by the code.**  Running `migrate()` on an initially
empty database with migrations `001-a.sql` (valid) and `002-b.sql` (whose
SQL fails at runtime): the batch fails and the transaction is rolled back
(`ROLLBACK` is the last client query, the applied SQL effects are gone and
the error propagates), but the database is **not** left as it was before
the call — the ledger table now exists and holds a committed row for
migration 1, because `StateManager.recordMigration` and `initialize` run on
their own autocommitted pool connections, outside the runner's
transaction. -/
theorem migrate_failure_keeps_ledger_row :
    (migrateModel acceptAll identityHash c1Contents c1Exec ("d")
        [("001-a.sql"), ("002-b.sql")] none ⟨false, [], []⟩).outcome =
      Except.error ("relation \"missing\" does not exist") ∧
    (migrateModel acceptAll identityHash c1Contents c1Exec ("d")
        [("001-a.sql"), ("002-b.sql")] none ⟨false, [], []⟩).clientTrace =
      [("BEGIN"), ("SET search_path TO \"public\""),
        ("CREATE TABLE t1 (x int)"), ("SET search_path TO \"public\""),
        ("BROKEN"), ("ROLLBACK")] ∧
    (migrateModel acceptAll identityHash c1Contents c1Exec ("d")
        [("001-a.sql"), ("002-b.sql")] none ⟨false, [], []⟩).db =
      ⟨true, [⟨1, ("a"), ("CREATE TABLE t1 (x int)")⟩], []⟩ ∧
    (migrateModel acceptAll identityHash c1Contents c1Exec ("d")
        [("001-a.sql"), ("002-b.sql")] none ⟨false, [], []⟩).db ≠
      (⟨false, [], []⟩ : DB) :=
  ⟨rfl, rfl, rfl, by decide⟩

/-! ### Claim C3 (refuted: the empty-pending early return never commits) -/

/-- **C3 is violated by the code.**  When the pending list is empty,
`migrate()` returns successfully and the ledger-table initialization is
persisted (it ran on a separate autocommitted connection) — but the no-op
transaction it opened is **not** committed: the early `return` at
`src/runner.ts` lines 58–61 skips the `COMMIT`, so the only query ever
issued on the transactional client is `BEGIN`, and the pooled client is
released with the transaction still open. -/
theorem migrate_empty_pending_never_commits :
    migrateModel acceptAll identityHash selectOne execAllOk ("d") [] none
      ⟨false, [], []⟩ =
      ⟨⟨true, [], []⟩, [("BEGIN")], Except.ok ()⟩ ∧
    ("COMMIT") ∉ (migrateModel acceptAll identityHash selectOne execAllOk
      ("d") [] none ⟨false, [], []⟩).clientTrace :=
  ⟨rfl, by decide⟩

/-! ### Claim C10 -/

/-- **C10.** `status()` scans with no previously-recorded set, so every
kept file is treated as new and the duplicate / append-only / gap checks
run across the whole directory: (a) when every kept number is positive and
some adjacent pair of kept files (sorted) differs by more than 50,
`status()` throws the gap error for the first such pair; (b) on the concrete
directory `{051, 150}` with migration 51 already recorded, `migrate()`
succeeds while `status()` throws the gap error citing 99; (c) a kept file
numbered 0 always makes `status()` throw (the append-only error naming 0
and 0). -/
theorem status_scans_whole_directory (parseOk : String → Bool)
    (hashHex : String → String) (directory : String) (files : List String)
    (contents : String → String) (db : DB)
    (hnd : ((sortedValidFiles files).map fileNumber).Nodup)
    (hsql : ∀ f ∈ files, fileFilter f = none →
      validateSql parseOk (contents f) f = none) :
    ((∀ f ∈ files, fileFilter f = none → 0 < fileNumber f) →
      ∀ (l₁ : List Migration) (a b : Migration) (l₂ : List Migration),
        scanNewOf hashHex directory contents files {} = l₁ ++ a :: b :: l₂ →
        List.Chain' (fun x y : Migration => y.number - x.number ≤ 50)
          (l₁ ++ [a]) →
        50 < b.number - a.number →
        statusModel parseOk hashHex contents directory files db =
          Except.error (gapMessage (b.number - a.number) a.number b.number
            50)) ∧
    ((migrateModel acceptAll identityHash selectOne execAllOk ("d") c10files
        none c10db).outcome = Except.ok () ∧
      statusModel acceptAll identityHash selectOne ("d") c10files c10db =
        Except.error (gapMessage 99 51 150 50)) ∧
    ((∃ f ∈ files, fileFilter f = none ∧ fileNumber f = 0) →
      statusModel parseOk hashHex contents directory files db =
        Except.error (appendOnlyMessage 0 0)) := by
  refine ⟨?_, ⟨rfl, rfl⟩, ?_⟩
  · intro hpos l₁ a b l₂ hsplit hpre hgap
    have happ : ∀ f ∈ files, fileFilter f = none →
        fileNumber f ∉ previousNumbersOf ({} : ScanOptions) →
        maxPreviousOf ({} : ScanOptions) < fileNumber f := by
      intro f hf hk _
      exact hpos f hf hk
    unfold statusModel
    rw [scan_result_checks {} hnd hsql, appendOnly_none_of_higher happ]
    dsimp only
    rw [show (({} : ScanOptions).maxGap.getD 50) = 50 from rfl]
    rw [gapCheck_some_of_first hsplit hpre hgap]
  · rintro ⟨f, hf, hkept, hzero⟩
    have hmem : mkMig hashHex directory contents f ∈
        scanNewOf hashHex directory contents files {} :=
      mem_scanNewOf.mpr ⟨⟨f, hf, hkept, rfl⟩, by simp [previousNumbersOf]⟩
    rcases ha : appendOnlyCheck (maxPreviousOf ({} : ScanOptions))
        (scanNewOf hashHex directory contents files {}) with _ | msg
    · have := appendOnlyCheck_none_iff.mp ha _ hmem
      rw [mkMig_number, hzero] at this
      exact absurd this (by simp [maxPreviousOf, previousNumbersOf])
    · obtain ⟨l₁, m', l₂, _, _, hle', hmsg⟩ := appendOnlyCheck_some_ex ha
      have hmax : maxPreviousOf ({} : ScanOptions) = 0 := rfl
      have hm0 : m'.number = 0 := by
        rw [hmax] at hle'
        omega
      unfold statusModel
      rw [scan_result_checks {} hnd hsql, ha, hmsg, hm0, hmax]

/-- Witness for C10 at concrete inputs: the whole-directory gap check and
the rejection of a migration numbered 0. -/
theorem status_scans_whole_directory_witness :
    statusModel acceptAll identityHash selectOne ("d") c10files c10db =
      Except.error (gapMessage 99 51 150 50) ∧
    statusModel acceptAll identityHash selectOne ("d") [("0-zero.sql")]
      ⟨true, [], []⟩ = Except.error (appendOnlyMessage 0 0) := by
  constructor
  · exact (status_scans_whole_directory acceptAll identityHash ("d")
      c10files selectOne c10db (by decide) (by decide)).1 (by decide)
      [] (scannedMig 51 ("a") ("d/051-a.sql") ("SELECT 1") ("SELECT 1"))
      (scannedMig 150 ("b") ("d/150-b.sql") ("SELECT 1") ("SELECT 1")) []
      (by rfl) (by simp) (by decide)
  · exact (status_scans_whole_directory acceptAll identityHash ("d")
      [("0-zero.sql")] selectOne ⟨true, [], []⟩ (by decide)
      (by decide)).2.2 ⟨("0-zero.sql"), by decide, by decide, by decide⟩

/-! ### The scan seen from a partially filled ledger

If a scan over the same directory with an empty previously-recorded set
returns `L`, then a scan whose previously-recorded numbers are exactly the
numbers of `L.take k` returns `L.drop k`. -/

theorem foldr_max_lt {ns : List Nat} {c : Nat} (h : ∀ x ∈ ns, x < c)
    (hc : 0 < c) : ns.foldr Nat.max 0 < c := by
  induction ns with
  | nil => simpa using hc
  | cons x ns ih =>
    rw [List.foldr_cons]
    exact Nat.max_lt.mpr ⟨h x (List.mem_cons_self x ns),
      ih (fun y hy => h y (List.mem_cons_of_mem x hy))⟩

theorem nodup_number_of_pairwise_lt {l : List Migration}
    (h : List.Pairwise (fun a b : Migration => a.number < b.number) l) :
    (l.map (fun m => m.number)).Nodup :=
  List.pairwise_map.mpr (h.imp Nat.ne_of_lt)

theorem scanNew_nil (migs : List Migration) :
    scanNew [] migs = migs.insertionSort (fun a b => a.number ≤ b.number) := by
  unfold scanNew
  exact List.filter_eq_self.mpr (fun a _ => rfl)

theorem filter_take_drop {L : List Migration}
    (hs : List.Pairwise (fun a b : Migration => a.number < b.number) L)
    {k j : Nat} (hk : k ≤ L.length) (hj : j ≤ k) :
    (L.drop j).filter (fun m =>
      !((L.take k).map (fun m => m.number)).contains m.number) = L.drop k
    := by
  have hdisj : ∀ m ∈ L.drop k,
      m.number ∉ (L.take k).map (fun m => m.number) := by
    intro m hm hmem
    rcases List.mem_map.mp hmem with ⟨m', hm', hnum⟩
    have hsplit := (List.pairwise_append.mp
      ((List.take_append_drop k L).symm ▸ hs)).2.2
    exact absurd (hnum ▸ hsplit m' hm' m hm) (by omega)
  have hdl : L.drop j = (L.take k).drop j ++ L.drop k := by
    conv_lhs => rw [← List.take_append_drop k L]
    rw [List.drop_append_of_le_length]
    rwa [List.length_take, Nat.min_eq_left hk]
  rw [hdl, List.filter_append]
  have h1 : ((L.take k).drop j).filter (fun m =>
      !((L.take k).map (fun m => m.number)).contains m.number) = [] := by
    rw [List.filter_eq_nil_iff]
    intro m hm
    have hmem : m.number ∈ (L.take k).map (fun m => m.number) :=
      List.mem_map_of_mem _ ((List.drop_sublist j _).subset hm)
    have hc : ((L.take k).map (fun m => m.number)).contains m.number = true :=
      List.elem_iff.mpr hmem
    rw [hc]
    decide
  have h2 : (L.drop k).filter (fun m =>
      !((L.take k).map (fun m => m.number)).contains m.number) = L.drop k
      := by
    rw [List.filter_eq_self]
    intro m hm
    rcases hc : ((L.take k).map (fun m => m.number)).contains m.number
    · rw [hc]
      decide
    · exact absurd (List.elem_iff.mp hc) (hdisj m hm)
  rw [h1, h2, List.nil_append]

theorem scan_take {parseOk : String → Bool} {hashHex : String → String}
    {directory : String} {files : List String} {contents : String → String}
    {L : List Migration}
    (hscan : (scanMigrations parseOk hashHex directory files contents
      {}).result = Except.ok L)
    {k : Nat} (hk : k ≤ L.length) {P : List Migration}
    (hP : P.map (fun m => m.number) = (L.take k).map (fun m => m.number)) :
    (scanMigrations parseOk hashHex directory files contents
      { previousMigrations := some P }).result = Except.ok (L.drop k) := by
  obtain ⟨migs, hb, hd, hL, hap, hg⟩ := scan_ok_parts hscan
  have hLs : L = migs.insertionSort (fun a b => a.number ≤ b.number) := by
    rw [hL]
    exact scanNew_nil migs
  have hsorted : List.Pairwise (fun a b : Migration => a.number < b.number)
      L := hL ▸ sorted_scanNew hd
  have hpos : ∀ m ∈ L, 0 < m.number := by
    have h0 : maxPreviousOf ({} : ScanOptions) = 0 := rfl
    have := appendOnlyCheck_none_iff.mp hap
    intro m hm
    have := this m hm
    omega
  have hchain := gapCheck_none_iff.mp
    (by rw [show (({} : ScanOptions).maxGap.getD 50) = 50 from rfl] at hg
        exact hg)
  -- the scan with previous numbers `P`
  unfold scanMigrations
  rw [hb]
  dsimp only
  unfold scanChecks
  rw [hd]
  dsimp only
  have hprev : previousNumbersOf
      ({ previousMigrations := some P } : ScanOptions) =
      P.map (fun m => m.number) := rfl
  have hnew : scanNew (previousNumbersOf
      ({ previousMigrations := some P } : ScanOptions)) migs = L.drop k := by
    unfold scanNew
    rw [hprev, hP, ← hLs]
    have := filter_take_drop hsorted hk (Nat.zero_le k)
    rwa [List.drop_zero] at this
  rw [hnew]
  have hap' : appendOnlyCheck (maxPreviousOf
      ({ previousMigrations := some P } : ScanOptions)) (L.drop k) = none
      := by
    rw [appendOnlyCheck_none_iff]
    intro m hm
    unfold maxPreviousOf
    rw [hprev, hP]
    rcases Nat.eq_zero_or_pos k with rfl | hkpos
    · simp only [List.take_zero, List.map_nil, List.isEmpty_nil, if_pos]
      exact hpos m (by rw [List.drop_zero] at hm; exact hm)
    · have htk : L.take k ≠ [] := by
        intro hnil
        have hlen : (L.take k).length = k := by
          rw [List.length_take]
          omega
        rw [hnil] at hlen
        simp at hlen
        omega
      have hne : ((L.take k).map (fun m => m.number)).isEmpty = false := by
        rcases ht : L.take k with _ | ⟨x, xs⟩
        · exact absurd ht htk
        · rfl
      rw [if_neg (by rw [hne]; decide)]
      apply foldr_max_lt
      · intro x hx
        rcases List.mem_map.mp hx with ⟨m', hm', rfl⟩
        exact (List.pairwise_append.mp
          ((List.take_append_drop k L).symm ▸ hsorted)).2.2 m' hm' m hm
      · exact hpos m ((List.drop_sublist k L).subset hm)
  rw [hap']
  dsimp only
  have hg' : gapCheck (({ previousMigrations := some P } :
      ScanOptions).maxGap.getD 50) (L.drop k) = none := by
    rw [show ((({ previousMigrations := some P } :
      ScanOptions).maxGap.getD 50)) = 50 from rfl]
    exact gapCheck_none_iff.mpr (hchain.drop k)
  rw [hg']

/-! ### Facts about a well-behaved concurrent scenario -/

theorem goodRun_sorted {env : RunEnv} {L : List Migration}
    (hg : GoodRun env L) :
    List.Pairwise (fun a b : Migration => a.number < b.number) L := by
  obtain ⟨migs, _, hd, hL, _, _⟩ := scan_ok_parts hg.1
  exact hL ▸ sorted_scanNew hd

theorem getCompletedMigrations_numbers {L : List Migration} {k : Nat}
    {db : DB}
    (hs : List.Pairwise (fun a b : Migration => a.number < b.number) L)
    (hdb : db.ledger = (L.take k).map rowOf) :
    (getCompletedMigrations db).map (fun m => m.number) =
      (L.take k).map (fun m => m.number) := by
  unfold getCompletedMigrations
  rw [hdb]
  have hsorted : List.Pairwise
      (fun a b : LedgerRow => a.number ≤ b.number)
      ((L.take k).map rowOf) := by
    rw [List.pairwise_map]
    exact ((hs.sublist (List.take_sublist k L)).imp Nat.le_of_lt)
  rw [List.Sorted.insertionSort_eq hsorted, List.map_map, List.map_map]
  rfl

theorem goodRun_scan_at {env : RunEnv} {L : List Migration}
    (hg : GoodRun env L) {db : DB} {k : Nat} (hk : k ≤ L.length)
    (hdb : db.ledger = (L.take k).map rowOf) :
    (scanMigrations env.parseOk env.hashHex env.directory env.files
      env.contents
      { previousMigrations := some (getCompletedMigrations db) }).result =
      Except.ok (L.drop k) :=
  scan_take hg.1 hk (getCompletedMigrations_numbers (goodRun_sorted hg) hdb)

theorem goodRun_filter_at {env : RunEnv} {L : List Migration}
    (hg : GoodRun env L) {db : DB} {k j : Nat} (hk : k ≤ L.length)
    (hj : j ≤ k) (hdb : db.ledger = (L.take k).map rowOf) :
    (L.drop j).filter (fun m =>
      !((getCompletedMigrations db).map
        (fun m => m.number)).contains m.number) = L.drop k := by
  rw [getCompletedMigrations_numbers (goodRun_sorted hg) hdb]
  exact filter_take_drop (goodRun_sorted hg) hk hj

/-- A non-empty suffix pins down its position: the head is `L[j]` and the
tail is the next suffix. -/
theorem suffix_head {L rest : List Migration} {m : Migration} {j : Nat}
    (h : m :: rest = L.drop j) :
    ∃ hj : j < L.length, m = L[j] ∧ rest = L.drop (j + 1) := by
  have hj : j < L.length := by
    by_contra hge
    rw [List.drop_eq_nil_iff.mpr (by omega)] at h
    exact absurd h (by simp)
  rw [List.drop_eq_getElem_cons hj] at h
  exact ⟨hj, (List.cons.injEq _ _ _ _ ▸ h).1, (List.cons.injEq _ _ _ _ ▸ h).2⟩

theorem mem_take_numbers_iff {L : List Migration}
    (hnd : (L.map (fun m => m.number)).Nodup) {k j : Nat}
    (hk : k ≤ L.length) (hj : j < L.length) :
    L[j].number ∈ (L.take k).map (fun m => m.number) ↔ j < k := by
  constructor
  · intro hmem
    rcases List.mem_map.mp hmem with ⟨m', hm', hnum⟩
    rcases List.mem_iff_getElem.mp hm' with ⟨i', hi', hEq⟩
    have hi'k : i' < k := by
      have := hi'
      rw [List.length_take] at this
      omega
    have hi'len : i' < L.length := by omega
    have hLi' : L[i'] = m' := by
      rw [← hEq, List.getElem_take]
    by_contra hjk
    have hij : i' ≠ j := by omega
    have hmi : i' < (L.map (fun m => m.number)).length := by
      rw [List.length_map]
      omega
    have hmj : j < (L.map (fun m => m.number)).length := by
      rw [List.length_map]
      omega
    have hmapEq : (L.map (fun m => m.number))[i'] =
        (L.map (fun m => m.number))[j] := by
      rw [List.getElem_map, List.getElem_map, hLi', hnum]
    exact hij ((List.Nodup.getElem_inj_iff hnd).mp hmapEq)
  · intro hjk
    apply List.mem_map_of_mem
    have hjt : j < (L.take k).length := by
      rw [List.length_take]
      omega
    have hEq : (L.take k)[j] = L[j] := List.getElem_take L
    rw [← hEq]
    exact List.getElem_mem hjt

theorem ledger_any_iff {L : List Migration} {k : Nat} {db : DB} {n : Nat}
    (hdb : db.ledger = (L.take k).map rowOf) :
    db.ledger.any (fun r => r.number = n) = true ↔
      n ∈ (L.take k).map (fun m => m.number) := by
  rw [hdb, List.any_eq_true]
  constructor
  · rintro ⟨r, hr, hp⟩
    rcases List.mem_map.mp hr with ⟨m', hm', rfl⟩
    have : m'.number = n := by simpa using hp
    exact this ▸ List.mem_map_of_mem _ hm'
  · intro hmem
    rcases List.mem_map.mp hmem with ⟨m', hm', rfl⟩
    exact ⟨rowOf m', List.mem_map_of_mem _ hm', by simp [rowOf]⟩

theorem posOK_mono {L : List Migration} {k k' : Nat} (hkk : k ≤ k')
    {p : PProc} (h : posOK L k p) : posOK L k' p := by
  cases p <;> try exact h
  all_goals
    obtain ⟨j, hj, hEq⟩ := h
    exact ⟨j, by omega, hEq⟩

theorem hot_posOK {L : List Migration} {k : Nat} {p : PProc}
    (h : hot L k p) : posOK L k p := by
  cases p <;> try exact trivial
  case toFilter migs => exact h
  case toExec fx m rest => exact ⟨k, Nat.le_refl k, h⟩
  case toLock fx m rest => exact ⟨k, Nat.le_refl k, h⟩
  case toCheck fx m rest => exact ⟨k, Nat.le_refl k, h⟩
  case toInsert fx m rest => exact ⟨k, Nat.le_refl k, h⟩

theorem hot_not_terminal {L : List Migration} {k : Nat} {p : PProc}
    (h : hot L k p) : isTerminalProc p = false := by
  cases p <;> first | rfl | exact absurd h (by intro hh; exact hh)

/-! ### Preservation of the concurrent invariant -/

theorem ConcInv_mk_set {L : List Migration} {cfg : Config} {i : Nat}
    (hilen : i < cfg.procs.length) {db' : DB} {p' : PProc} {k' : Nat}
    (hk' : k' ≤ L.length) (hdb' : db'.ledger = (L.take k').map rowOf)
    (hposOld : ∀ i', ∀ h : i' < cfg.procs.length, posOK L k' cfg.procs[i'])
    (hp' : posOK L k' p')
    (hhot' : k' < L.length →
      (∃ i', ∃ h : i' < cfg.procs.length, i' ≠ i ∧ hot L k' cfg.procs[i'])
        ∨ hot L k' p') :
    ConcInv L ⟨db', cfg.procs.set i p'⟩ := by
  refine ⟨k', hk', hdb', ?_, ?_⟩
  · intro i' h'
    have h'' : i' < cfg.procs.length := by
      rw [List.length_set] at h'
      exact h'
    rw [List.getElem_set]
    by_cases heq : i = i'
    · rw [if_pos heq]
      exact hp'
    · rw [if_neg heq]
      exact hposOld i' h''
  · intro hlt
    rcases hhot' hlt with ⟨i₀, h₀, hne, hh₀⟩ | hp
    · refine ⟨i₀, by rw [List.length_set]; exact h₀, ?_⟩
      rw [List.getElem_set, if_neg (fun h => hne h.symm)]
      exact hh₀
    · refine ⟨i, by rw [List.length_set]; exact hilen, ?_⟩
      rw [List.getElem_set, if_pos rfl]
      exact hp

theorem hot_dispatch {L : List Migration} {k : Nat} {cfg : Config} {i : Nat}
    {p' : PProc} (hilen : i < cfg.procs.length)
    (hhot : ∃ i₀, ∃ h : i₀ < cfg.procs.length, hot L k cfg.procs[i₀])
    (himp : hot L k cfg.procs[i] → hot L k p') :
    (∃ i', ∃ h : i' < cfg.procs.length, i' ≠ i ∧ hot L k cfg.procs[i']) ∨
      hot L k p' := by
  obtain ⟨i₀, h₀, hh⟩ := hhot
  by_cases heq : i₀ = i
  · subst heq
    exact Or.inr (himp hh)
  · exact Or.inl ⟨i₀, h₀, heq, hh⟩

theorem ConcInv_applyAt {env : RunEnv} {L : List Migration}
    (hg : GoodRun env L) {cfg : Config} (hinv : ConcInv L cfg) (i : Nat) :
    ConcInv L (applyAt env cfg i) := by
  obtain ⟨k, hk, hdb, hpos, hhot⟩ := hinv
  have hnd : (L.map (fun m => m.number)).Nodup :=
    nodup_number_of_pairwise_lt (goodRun_sorted hg)
  unfold applyAt
  rcases hgi : cfg.procs[i]? with _ | p
  · exact ⟨k, hk, hdb, hpos, hhot⟩
  obtain ⟨hilen, hpi⟩ := List.getElem?_eq_some.mp hgi
  have hpp := hpos i hilen
  dsimp only
  cases p with
  | toInit =>
    show ConcInv L ⟨ensureLedgerTable cfg.db, cfg.procs.set i PProc.toScan⟩
    refine ConcInv_mk_set hilen hk hdb hpos trivial ?_
    intro hlt
    exact hot_dispatch hilen (hhot hlt) (fun _ => trivial)
  | toScan =>
    have hscan := goodRun_scan_at hg hk hdb
    simp only [pstep]
    rw [hscan]
    dsimp only
    refine ConcInv_mk_set hilen hk hdb hpos ⟨k, Nat.le_refl k, rfl⟩ ?_
    intro hlt
    exact hot_dispatch hilen (hhot hlt) (fun _ => ⟨k, Nat.le_refl k, rfl⟩)
  | toFilter migs =>
    rw [hpi] at hpp
    obtain ⟨j, hj, hmigs⟩ := hpp
    have hfilter : migs.filter (fun m =>
        !((getCompletedMigrations cfg.db).map
          (fun m => m.number)).contains m.number) = L.drop k := by
      rw [hmigs]
      exact goodRun_filter_at hg hk hj hdb
    simp only [pstep]
    rw [hfilter]
    rcases hdk : L.drop k with _ | ⟨m, rest⟩
    · dsimp only
      refine ConcInv_mk_set hilen hk hdb hpos trivial ?_
      intro hlt
      exfalso
      have := List.drop_eq_nil_iff.mp hdk
      omega
    · dsimp only
      refine ConcInv_mk_set hilen hk hdb hpos ⟨k, Nat.le_refl k, hdk.symm⟩ ?_
      intro hlt
      exact hot_dispatch hilen (hhot hlt) (fun _ => hdk.symm)
  | toExec fx m rest =>
    rw [hpi] at hpp
    obtain ⟨j, hj, hsuffix⟩ := hpp
    obtain ⟨hjlen, hm, hrest⟩ := suffix_head hsuffix
    have hmem : m ∈ L := hm ▸ List.getElem_mem hjlen
    have hexec : env.execResult m.sql = none := hg.2 m hmem
    simp only [pstep]
    rw [hexec]
    dsimp only
    refine ConcInv_mk_set hilen hk hdb hpos ⟨j, hj, hsuffix⟩ ?_
    intro hlt
    refine hot_dispatch hilen (hhot hlt) ?_
    rw [hpi]
    exact fun h => h
  | toLock fx m rest =>
    rw [hpi] at hpp
    show ConcInv L
      ⟨cfg.db, cfg.procs.set i (PProc.toCheck fx m rest)⟩
    refine ConcInv_mk_set hilen hk hdb hpos hpp ?_
    intro hlt
    refine hot_dispatch hilen (hhot hlt) ?_
    rw [hpi]
    exact fun h => h
  | toCheck fx m rest =>
    rw [hpi] at hpp
    obtain ⟨j, hj, hsuffix⟩ := hpp
    obtain ⟨hjlen, hm, hrest⟩ := suffix_head hsuffix
    simp only [pstep]
    rcases hany : cfg.db.ledger.any (fun r => r.number = m.number) with _ | _
    · -- no row yet: j = k, proceed to the insert
      have hjk : j = k := by
        by_contra hne
        have hjlt : j < k := by omega
        have : m.number ∈ (L.take k).map (fun x => x.number) := by
          rw [hm]
          exact (mem_take_numbers_iff hnd hk hjlen).mpr hjlt
        have := (ledger_any_iff hdb).mpr this
        rw [hany] at this
        exact absurd this (by decide)
      rw [if_neg (show ¬(false = true) by decide)]
      refine ConcInv_mk_set hilen hk hdb hpos ⟨j, hj, hsuffix⟩ ?_
      intro hlt
      refine hot_dispatch hilen (hhot hlt) ?_
      rw [hpi]
      intro h
      exact h
    · -- a row exists: this runner loses and fails
      have hjlt : j < k := by
        have hmem := (ledger_any_iff hdb).mp hany
        rw [hm] at hmem
        exact (mem_take_numbers_iff hnd hk hjlen).mp hmem
      rw [if_pos (show true = true from rfl)]
      refine ConcInv_mk_set hilen hk hdb hpos trivial ?_
      intro hlt
      refine hot_dispatch hilen (hhot hlt) ?_
      rw [hpi]
      intro hh
      exfalso
      have hlen := congrArg List.length (hsuffix.symm.trans hh)
      rw [List.length_drop, List.length_drop] at hlen
      omega
  | toInsert fx m rest =>
    rw [hpi] at hpp
    obtain ⟨j, hj, hsuffix⟩ := hpp
    obtain ⟨hjlen, hm, hrest⟩ := suffix_head hsuffix
    simp only [pstep]
    rcases hany : cfg.db.ledger.any (fun r => r.number = m.number) with _ | _
    · -- the insert succeeds and advances the ledger frontier
      have hjk : j = k := by
        by_contra hne
        have hjlt : j < k := by omega
        have : m.number ∈ (L.take k).map (fun x => x.number) := by
          rw [hm]
          exact (mem_take_numbers_iff hnd hk hjlen).mpr hjlt
        have := (ledger_any_iff hdb).mpr this
        rw [hany] at this
        exact absurd this (by decide)
      subst hjk
      have hklen : j < L.length := hjlen
      rw [if_neg (show ¬(false = true) by decide)]
      have hdb' :
          (⟨cfg.db.ledgerExists,
            cfg.db.ledger ++ [⟨m.number, m.name, m.hash⟩],
            cfg.db.applied⟩ : DB).ledger =
          (L.take (j + 1)).map rowOf := by
        dsimp only
        rw [hdb, List.take_succ, List.getElem?_eq_getElem hklen]
        rw [List.map_append]
        rw [hm]
        rfl
      have hrest' : rest = L.drop (j + 1) := hrest
      rcases hre : rest with _ | ⟨m', rest'⟩
      · dsimp only
        refine ConcInv_mk_set hilen (by omega) hdb'
          (fun i' h => posOK_mono (by omega) (hpos i' h)) trivial ?_
        intro hlt
        exfalso
        rw [hre] at hrest'
        have := List.drop_eq_nil_iff.mp hrest'.symm
        omega
      · dsimp only
        rw [hre] at hrest'
        refine ConcInv_mk_set hilen (by omega) hdb'
          (fun i' h => posOK_mono (by omega) (hpos i' h))
          ⟨j + 1, Nat.le_refl _, hrest'⟩ ?_
        intro hlt
        exact Or.inr hrest'
    · -- a row appeared between the check and the insert: the primary key
      -- on number rejects the second insert
      have hjlt : j < k := by
        have hmem := (ledger_any_iff hdb).mp hany
        rw [hm] at hmem
        exact (mem_take_numbers_iff hnd hk hjlen).mp hmem
      rw [if_pos (show true = true from rfl)]
      refine ConcInv_mk_set hilen hk hdb hpos trivial ?_
      intro hlt
      refine hot_dispatch hilen (hhot hlt) ?_
      rw [hpi]
      intro hh
      exfalso
      have hlen := congrArg List.length (hsuffix.symm.trans hh)
      rw [List.length_drop, List.length_drop] at hlen
      omega
  | toCommit fx =>
    rw [hpi] at hpp
    show ConcInv L
      ⟨⟨cfg.db.ledgerExists, cfg.db.ledger, cfg.db.applied ++ fx⟩,
        cfg.procs.set i PProc.finished⟩
    refine ConcInv_mk_set hilen hk hdb hpos trivial ?_
    intro hlt
    refine hot_dispatch hilen (hhot hlt) ?_
    rw [hpi]
    exact fun h => absurd h (fun hh => hh)
  | finished =>
    show ConcInv L ⟨cfg.db, cfg.procs.set i PProc.finished⟩
    refine ConcInv_mk_set hilen hk hdb hpos trivial ?_
    intro hlt
    refine hot_dispatch hilen (hhot hlt) ?_
    rw [hpi]
    exact fun h => absurd h (fun hh => hh)
  | failed e =>
    show ConcInv L ⟨cfg.db, cfg.procs.set i (PProc.failed e)⟩
    refine ConcInv_mk_set hilen hk hdb hpos trivial ?_
    intro hlt
    refine hot_dispatch hilen (hhot hlt) ?_
    rw [hpi]
    exact fun h => absurd h (fun hh => hh)

theorem ConcInv_reaches {env : RunEnv} {L : List Migration}
    (hg : GoodRun env L) {cfg cfg' : Config} (hinv : ConcInv L cfg)
    (hr : Reaches env cfg cfg') : ConcInv L cfg' := by
  induction hr with
  | refl => exact hinv
  | tail _ hstep ih =>
    obtain ⟨i, hi⟩ := hstep
    rw [hi]
    exact ConcInv_applyAt hg ih i

theorem ConcInv_initConfig {L : List Migration} (te : Bool) {N : Nat}
    (hN : 1 ≤ N) : ConcInv L (initConfig te N) := by
  refine ⟨0, Nat.zero_le _, rfl, ?_, ?_⟩
  · intro i h
    have hlen : i < N := by
      rw [show (initConfig te N).procs.length = N from
        List.length_replicate N PProc.toInit] at h
      exact h
    have : (initConfig te N).procs[i] = PProc.toInit :=
      List.getElem_replicate _ h
    rw [this]
    trivial
  · intro _
    have h0 : 0 < (initConfig te N).procs.length := by
      rw [show (initConfig te N).procs.length = N from
        List.length_replicate N PProc.toInit]
      omega
    refine ⟨0, h0, ?_⟩
    have : (initConfig te N).procs[0] = PProc.toInit :=
      List.getElem_replicate _ h0
    rw [this]
    trivial

theorem goodRun_nodup_numbers {env : RunEnv} {L : List Migration}
    (hg : GoodRun env L) : (L.map (fun m => m.number)).Nodup :=
  nodup_number_of_pairwise_lt (goodRun_sorted hg)

/-- C2: for any number of concurrent `migrate()` calls racing on the same
directory and schema (over a well-behaved scan and executor), every
reachable interleaving keeps the ledger free of duplicate migration
numbers, and when every call has returned or thrown the ledger holds
exactly one row per migration number — each migration was recorded by
exactly one of the racing calls. -/
theorem concurrent_migrate_exactly_once {env : RunEnv} {L : List Migration}
    {N : Nat} {te : Bool} {cfg : Config}
    (hg : GoodRun env L) (hN : 1 ≤ N)
    (hr : Reaches env (initConfig te N) cfg) :
    (cfg.db.ledger.map (fun r => r.number)).Nodup ∧
      (Terminal cfg → cfg.db.ledger = L.map rowOf ∧
        ∀ m ∈ L,
          (cfg.db.ledger.map (fun r => r.number)).count m.number = 1) := by
  have hinv := ConcInv_reaches hg (ConcInv_initConfig te hN) hr
  have hnd : (L.map (fun m => m.number)).Nodup := goodRun_nodup_numbers hg
  obtain ⟨k, hk, hdb, hpos, hhot⟩ := hinv
  have hledmap : cfg.db.ledger.map (fun r => r.number) =
      (L.take k).map (fun m => m.number) := by
    rw [hdb, List.map_map]
    rfl
  constructor
  · rw [hledmap]
    exact List.Nodup.sublist
      ((List.take_sublist k L).map (fun m => m.number)) hnd
  · intro hterm
    have hcomplete : cfg.db.ledger = L.map rowOf := by
      by_cases hlt : k < L.length
      · obtain ⟨i, hi, hh⟩ := hhot hlt
        have hti := hterm cfg.procs[i] (List.getElem_mem hi)
        rw [hot_not_terminal hh] at hti
        exact absurd hti (by decide)
      · have hkeq : k = L.length := by omega
        rw [hdb, hkeq, List.take_length]
    refine ⟨hcomplete, ?_⟩
    intro m hm
    have hmap : cfg.db.ledger.map (fun r => r.number) =
        L.map (fun x => x.number) := by
      rw [hcomplete, List.map_map]
      rfl
    rw [hmap]
    exact List.count_eq_one_of_mem hnd (List.mem_map_of_mem _ hm)

theorem c2good : GoodRun c2env c2L := ⟨rfl, fun _ _ => rfl⟩

theorem c2reach : Reaches c2env (initConfig false 1) c2final :=
  Relation.ReflTransGen.head ⟨0, rfl⟩
    (Relation.ReflTransGen.head ⟨0, rfl⟩
      (Relation.ReflTransGen.head ⟨0, rfl⟩
        (Relation.ReflTransGen.head ⟨0, rfl⟩
          (Relation.ReflTransGen.head ⟨0, rfl⟩
            (Relation.ReflTransGen.head ⟨0, rfl⟩
              (Relation.ReflTransGen.head ⟨0, rfl⟩
                (Relation.ReflTransGen.head ⟨0, rfl⟩
                  Relation.ReflTransGen.refl)))))))

/-- Witness for C2: one concrete racing scenario, run to its terminal
configuration, where the single migration ends up recorded exactly once. -/
theorem concurrent_migrate_exactly_once_witness :
    (c2final.db.ledger.map (fun r => r.number)).Nodup ∧
      (Terminal c2final → c2final.db.ledger = c2L.map rowOf ∧
        ∀ m ∈ c2L,
          (c2final.db.ledger.map (fun r => r.number)).count m.number = 1) :=
  concurrent_migrate_exactly_once c2good (Nat.le_refl 1) c2reach

end PgSimpleMigrations
